import Mathlib

/-!
Verification of the judge orchestrator of judge-v3.

The definitions below are a shallow embedding of the daemon's judging core:

* the numeric model (`JsNum`) embeds JavaScript numbers (rationals plus
  `NaN` and the two infinities) together with the comparison and
  arithmetic operators the orchestrator uses, including the lodash
  `_.min` / `_.sum` behaviour (`_.min` skips `null` and `NaN` entries);
* `calculateSubtaskScore` / `updateSubtaskScore` embed the score
  calculator of `judger-base.ts`;
* `getSubtaskOrder` embeds the subtask dependency validation and Kahn
  topological sort;
* `skipLoop` / `runSkippableSubtask` embed the sequential ("skippable")
  subtask runner with its skip flag and the min-propagation clamp;
* `wrapperStep` / `runWrapperTrace` embed the per-run testcase
  deduplication wrapper, split at its suspension point;
* `findDiagnosticCase` / `runDiagnostics` embed the diagnostics driver
  of the standard judger.
-/

namespace JudgeV3

/-- JavaScript number: a finite rational, `NaN`, or an infinity. -/
inductive JsNum where
  | num (q : ℚ)
  | nan
  | inf
  | ninf
deriving DecidableEq, Repr, Inhabited

/-- JavaScript strict comparison `a < b` (false whenever `NaN` is involved). -/
def jsLt : JsNum → JsNum → Bool
  | .num a, .num b => a < b
  | .num _, .inf => true
  | .ninf, .num _ => true
  | .ninf, .inf => true
  | _, _ => false

/-- JavaScript comparison `a ≤ b` (false whenever `NaN` is involved). -/
def jsLe : JsNum → JsNum → Bool
  | .num a, .num b => a ≤ b
  | .nan, _ => false
  | _, .nan => false
  | .ninf, _ => true
  | _, .inf => true
  | .inf, .num _ => false
  | .inf, .ninf => false
  | .num _, .ninf => false

/-- JavaScript `Math.min` of two values: `NaN` absorbs, otherwise the smaller. -/
def jsMin (a b : JsNum) : JsNum :=
  if a = .nan ∨ b = .nan then .nan
  else if jsLt a b then a else b

/-- JavaScript multiplication. -/
def jsMul : JsNum → JsNum → JsNum
  | .num a, .num b => .num (a * b)
  | .nan, _ => .nan
  | _, .nan => .nan
  | .inf, .inf => .inf
  | .inf, .ninf => .ninf
  | .ninf, .inf => .ninf
  | .ninf, .ninf => .inf
  | .inf, .num b => if 0 < b then .inf else if b < 0 then .ninf else .nan
  | .num a, .inf => if 0 < a then .inf else if a < 0 then .ninf else .nan
  | .ninf, .num b => if 0 < b then .ninf else if b < 0 then .inf else .nan
  | .num a, .ninf => if 0 < a then .ninf else if a < 0 then .inf else .nan

/-- JavaScript addition. -/
def jsAdd : JsNum → JsNum → JsNum
  | .num a, .num b => .num (a + b)
  | .nan, _ => .nan
  | _, .nan => .nan
  | .inf, .ninf => .nan
  | .ninf, .inf => .nan
  | .inf, _ => .inf
  | _, .inf => .inf
  | .ninf, _ => .ninf
  | _, .ninf => .ninf

/-- JavaScript division (used for the score ratio of a dependency). -/
def jsDiv : JsNum → JsNum → JsNum
  | .num a, .num b =>
      if b = 0 then (if a = 0 then .nan else if 0 < a then .inf else .ninf)
      else .num (a / b)
  | .nan, _ => .nan
  | _, .nan => .nan
  | .num _, .inf => .num 0
  | .num _, .ninf => .num 0
  | .inf, .num b => if b < 0 then .ninf else .inf
  | .ninf, .num b => if b < 0 then .inf else .ninf
  | .inf, .inf => .nan
  | .inf, .ninf => .nan
  | .ninf, .inf => .nan
  | .ninf, .ninf => .nan

/-- One step of lodash `_.min`: `null` entries are skipped, `NaN` is never
selected as the initial candidate and never wins a comparison. -/
def lodashMinStep (acc : Option JsNum) (v : Option JsNum) : Option JsNum :=
  match v with
  | none => acc
  | some x =>
    match acc with
    | none => if x = .nan then none else some x
    | some c => if jsLt x c then some x else some c

/-- lodash `_.min` over a list of nullable numbers; `none` is `undefined`. -/
def lodashMin (l : List (Option JsNum)) : Option JsNum :=
  l.foldl lodashMinStep none

/-- lodash `_.sum` over a list of nullable numbers; a `null` entry behaves
as adding zero, and the empty sum is `0`. -/
def lodashSum (l : List (Option JsNum)) : JsNum :=
  l.foldl (fun acc v => jsAdd acc (v.getD (.num 0))) (.num 0)

/-- Scoring mode of a subtask (`SubtaskScoringType` in the daemon interfaces). -/
inductive SubtaskScoringType where
  | Minimum
  | Multiple
  | Summation
deriving DecidableEq, Repr, Inhabited

/-- Status of a case or subtask (`TaskStatus` in the daemon interfaces). -/
inductive TaskStatus where
  | Waiting
  | Running
  | Done
  | Skipped
  | Failed
deriving DecidableEq, Repr, Inhabited

/-- Verdict of one testcase (`TestcaseResultType`). -/
inductive TestcaseResultType where
  | Accepted
  | WrongAnswer
  | PartiallyCorrect
  | MemoryLimitExceeded
  | TimeLimitExceeded
  | OutputLimitExceeded
  | FileError
  | RuntimeError
  | JudgementFailed
  | InvalidInteraction
deriving DecidableEq, Repr, Inhabited

/-- One testcase of a subtask (`TestcaseJudge`): the name is the
deduplication key; input and output are nullable file names. -/
structure TestcaseJudge where
  name : String
  input : Option String
  output : Option String
deriving DecidableEq, Repr, Inhabited

/-- One subtask of the test data (`SubtaskJudge`). -/
structure SubtaskJudge where
  type : SubtaskScoringType
  score : JsNum
  cases : List TestcaseJudge
  dependencies : List Int
deriving DecidableEq, Repr, Inhabited

/-- Preview of an input or output file attached to a testcase result. -/
structure FilePreview where
  name : Option String
  content : Option String
deriving DecidableEq, Repr, Inhabited

/-- Result details of one judged testcase (`TestcaseDetails`); every field
is optional because the initial placeholder result carries only a scoring
rate. -/
structure TestcaseDetails where
  type : Option TestcaseResultType
  time : Option JsNum
  memory : Option JsNum
  input : Option FilePreview
  output : Option FilePreview
  scoringRate : Option JsNum
  userOutput : Option String
  userError : Option String
  spjMessage : Option String
  systemMessage : Option String
  diagnostics : Option String
deriving DecidableEq, Repr, Inhabited

/-- State of one case inside a `SubtaskResult` (`CaseResult`). -/
structure CaseState where
  status : TaskStatus
  result : Option TestcaseDetails
  errorMessage : Option String
deriving DecidableEq, Repr, Inhabited

/-- State of one subtask result (`SubtaskResult`). -/
structure SubtaskState where
  cases : List CaseState
  status : TaskStatus
  score : JsNum
deriving DecidableEq, Repr, Inhabited

/-- Result of a compilation (`CompilationResult`). -/
structure CompilationResult where
  status : TaskStatus
  message : Option String
deriving DecidableEq, Repr, Inhabited

/-- The placeholder details every case starts with: scoring rate `1` for
the skippable modes and `0` for `Summation`. -/
def initialCaseDetails (t : SubtaskScoringType) : TestcaseDetails :=
  { type := none, time := none, memory := none, input := none, output := none,
    scoringRate := some (if t ≠ SubtaskScoringType.Summation then .num 1 else .num 0),
    userOutput := none, userError := none, spjMessage := none, systemMessage := none,
    diagnostics := none }

/-- The state every case starts in: `Waiting` with the placeholder result. -/
def initialCaseState (t : SubtaskScoringType) : CaseState :=
  { status := .Waiting, result := some (initialCaseDetails t), errorMessage := none }

/-- The scoring rate `updateSubtaskScore` reads from a case: the result's
rate if a result object is present, `0` otherwise. -/
def caseRate (c : CaseState) : Option JsNum :=
  match c.result with
  | some d => d.scoringRate
  | none => some (.num 0)

/-- Embedding of `calculateSubtaskScore`: minimum, product or mean of the
per-case rates, with the lodash semantics of the source (`_.min` skips
null and `NaN` entries and yields `undefined` when nothing remains). -/
def calculateSubtaskScore (scoring : SubtaskScoringType) (scores : List (Option JsNum)) :
    Option JsNum :=
  match scoring with
  | .Minimum => lodashMin scores
  | .Multiple => some (scores.foldl (fun res cur => jsMul res (cur.getD (.num 0))) (.num 1))
  | .Summation => some (jsDiv (lodashSum scores) (.num scores.length))

/-- Embedding of `updateSubtaskScore`: `NaN` as soon as some case failed,
otherwise the calculated rate times the subtask's full score. -/
def updateSubtaskScore (task : SubtaskJudge) (cases : List CaseState) : JsNum :=
  if cases.any (fun c => decide (c.status = TaskStatus.Failed)) then .nan
  else
    match calculateSubtaskScore task.type (cases.map caseRate) with
    | none => .nan
    | some v => jsMul v task.score

/-- The check `score == null || isNaN(score) || score === 0` that decides
whether the rest of a skippable subtask is skipped. -/
def scoreTriggersSkip (score : Option JsNum) : Bool :=
  match score with
  | none => true
  | some .nan => true
  | some (.num q) => decide (q = 0)
  | some _ => false

/-- Transition of a case on a successful evaluation. -/
def markDone (c : CaseState) (d : TestcaseDetails) : CaseState :=
  { c with status := .Done, result := some d }

/-- Transition of a case on a runner error. -/
def markFailed (c : CaseState) (e : String) : CaseState :=
  { c with status := .Failed, errorMessage := some e }

/-- Transition of a case once the skip flag is set: only the status field
is written. -/
def markSkipped (c : CaseState) : CaseState :=
  { c with status := .Skipped }

/-- Embedding of the sequential case loop of a skippable subtask.  The
oracle gives, per case index, the outcome of `judgeTestcaseWrapper`
(success with details, or a rejected promise).  The loop records which
cases were actually handed to the wrapper (`invoked`) and the score after
each call of the update routine (`trace`).  On a runner error the local
`score` variable keeps its initial value `0`, so the skip check fires. -/
def skipLoop (update : List CaseState → JsNum) (oracle : Nat → Except String TestcaseDetails) :
    List Nat → List CaseState → Bool → List Nat → List JsNum →
    (List CaseState × Bool × List Nat × List JsNum)
  | [], states, skipped, invoked, trace => (states, skipped, invoked, trace)
  | i :: rest, states, skipped, invoked, trace =>
    if skipped then
      skipLoop update oracle rest (states.set i (markSkipped (states.getD i default)))
        skipped invoked trace
    else
      match oracle i with
      | .ok d =>
        let states1 := states.set i (markDone (states.getD i default) d)
        skipLoop update oracle rest states1 (scoreTriggersSkip d.scoringRate)
          (invoked ++ [i]) (trace ++ [update states1])
      | .error e =>
        let states1 := states.set i (markFailed (states.getD i default) e)
        skipLoop update oracle rest states1 (scoreTriggersSkip (some (.num 0)))
          (invoked ++ [i]) (trace ++ [update states1])

/-- The ratio `results[index].score / subtasks[index].score` of one
dependency. -/
def depScoreRatio (allSubtasks : List SubtaskJudge) (allScores : List JsNum) (index : Int) :
    JsNum :=
  jsDiv (allScores.getD index.toNat .nan) ((allSubtasks.getD index.toNat default).score)

/-- The value `minScore = minRatio * currentTask.score` computed by a
`Minimum` subtask before its cases run, where
`minRatio = _.min(dependencies.map(ratio).concat(1))`. -/
def minScoreOf (allSubtasks : List SubtaskJudge) (allScores : List JsNum)
    (task : SubtaskJudge) : JsNum :=
  jsMul
    ((lodashMin ((task.dependencies.map
        (fun index => some (depScoreRatio allSubtasks allScores index))) ++
      [some (.num 1)])).getD .nan)
    task.score

/-- The initial value of the skip flag: a `Minimum` subtask is skipped
upfront when `!(minScore > 0)`. -/
def initialSkip (allSubtasks : List SubtaskJudge) (allScores : List JsNum)
    (task : SubtaskJudge) : Bool :=
  if task.type = SubtaskScoringType.Minimum then
    !(jsLt (.num 0) (minScoreOf allSubtasks allScores task))
  else false

/-- The score-update routine of one subtask: for a `Minimum` subtask the
plain update is wrapped so the score is clamped to `minScore`. -/
def subtaskUpdate (allSubtasks : List SubtaskJudge) (allScores : List JsNum)
    (task : SubtaskJudge) (states : List CaseState) : JsNum :=
  if task.type = SubtaskScoringType.Minimum then
    jsMin (updateSubtaskScore task states) (minScoreOf allSubtasks allScores task)
  else updateSubtaskScore task states

/-- Outcome of driving one skippable subtask. -/
structure SkippableRun where
  cases : List CaseState
  score : JsNum
  invoked : List Nat
  scoreTrace : List JsNum
deriving Repr

/-- Embedding of the non-`Summation` branch of `JudgerBase.judge` for one
subtask: build the initial placeholder states, compute the min-propagation
data when the type is `Minimum`, run the cases sequentially, and finish
with one more update of the score. -/
def runSkippableSubtask (allSubtasks : List SubtaskJudge) (allScores : List JsNum)
    (task : SubtaskJudge) (oracle : Nat → Except String TestcaseDetails) : SkippableRun :=
  let update := subtaskUpdate allSubtasks allScores task
  let init := task.cases.map (fun _ => initialCaseState task.type)
  let out := skipLoop update oracle (List.range task.cases.length) init
    (initialSkip allSubtasks allScores task) [] []
  { cases := out.1, score := update out.1, invoked := out.2.2.1,
    scoreTrace := out.2.2.2 ++ [update out.1] }

/-- State of the per-run deduplication wrapper: the cache of completed
results, the names with an outstanding evaluation, and the log of
underlying `judgeTestcase` invocations. -/
structure WrapperState where
  cache : List (String × TestcaseDetails)
  pending : List String
  calls : List String
deriving DecidableEq, Repr

/-- Lookup in the deduplication cache. -/
def cacheLookup (cache : List (String × TestcaseDetails)) (name : String) :
    Option TestcaseDetails :=
  match cache.find? (fun p => p.1 == name) with
  | some p => some p.2
  | none => none

/-- `Map.set` on the deduplication cache: overwrite an existing entry or
append a new one. -/
def cacheSet (cache : List (String × TestcaseDetails)) (name : String)
    (d : TestcaseDetails) : List (String × TestcaseDetails) :=
  if (cache.find? (fun p => p.1 == name)).isSome then
    cache.map (fun p => if p.1 == name then (name, d) else p)
  else cache ++ [(name, d)]

/-- Events of `judgeTestcaseWrapper`, split at its suspension point: an
`invoke` is the synchronous part of a call (cache check, and on a miss the
start of the underlying evaluation); a resolution is the completion of an
outstanding evaluation, storing the result on success only. -/
inductive WrapperEvent where
  | invoke (c : TestcaseJudge)
  | resolveOk (name : String) (d : TestcaseDetails)
  | resolveErr (name : String) (e : String)
deriving Repr

/-- One step of the wrapper state machine. -/
def wrapperStep (s : WrapperState) : WrapperEvent → WrapperState
  | .invoke c =>
    if (cacheLookup s.cache c.name).isSome then s
    else { s with pending := s.pending ++ [c.name], calls := s.calls ++ [c.name] }
  | .resolveOk n d =>
    { s with cache := cacheSet s.cache n d, pending := s.pending.erase n }
  | .resolveErr n _ =>
    { s with pending := s.pending.erase n }

/-- Run a list of wrapper events. -/
def runWrapperTrace (s : WrapperState) : List WrapperEvent → WrapperState
  | [] => s
  | e :: rest => runWrapperTrace (wrapperStep s e) rest

/-- A trace is valid when every resolution matches an outstanding
evaluation. -/
def validWrapperTrace (s : WrapperState) : List WrapperEvent → Bool
  | [] => true
  | e :: rest =>
    (match e with
     | .invoke _ => true
     | .resolveOk n _ => s.pending.contains n
     | .resolveErr n _ => s.pending.contains n) && validWrapperTrace (wrapperStep s e) rest

/-- The wrapper state at the start of a judge run. -/
def initWrapperState : WrapperState :=
  { cache := [], pending := [], calls := [] }

/-- Number of underlying `judgeTestcase` calls recorded for one name. -/
def callsFor (s : WrapperState) (n : String) : Nat :=
  s.calls.count n

/-- The message of a fatal subtask-configuration error. -/
def subtaskDepsError (msg : String) : String :=
  "Misconfigured subtask dependencies: " ++ msg

/-- Validation of the dependency list of subtask `index`: every entry must
be an in-range index of a `Minimum` subtask; each valid entry appends
`index` to the out-edges of the referent. -/
def addEdges (index : Nat) (n : Nat) (subtasks : List SubtaskJudge) :
    List Int → List (List Nat) → Except String (List (List Nat))
  | [], edgesOut => .ok edgesOut
  | d :: rest, edgesOut =>
    if d < 0 ∨ (n : Int) ≤ d then .error (subtaskDepsError "subtask index out of range")
    else if (subtasks.getD d.toNat default).type ≠ SubtaskScoringType.Minimum then
      .error (subtaskDepsError "subtask with dependencies must have scoring type 'min'")
    else addEdges index n subtasks rest
      (edgesOut.set d.toNat (edgesOut.getD d.toNat [] ++ [index]))

/-- The validation pass of `getSubtaskOrder`: walk the subtasks in index
order, seed the queue with the subtasks without dependencies, build the
out-edge lists and the in-degrees. -/
def validateLoop (subtasks : List SubtaskJudge) (n : Nat) :
    List Nat → List Nat → List (List Nat) → List Int →
    Except String (List Nat × List (List Nat) × List Int)
  | [], queue, edgesOut, degreeIn => .ok (queue, edgesOut, degreeIn)
  | i :: rest, queue, edgesOut, degreeIn =>
    if 0 < (subtasks.getD i default).dependencies.length ∧
        (subtasks.getD i default).type ≠ SubtaskScoringType.Minimum then
      .error (subtaskDepsError "subtask with dependencies must have scoring type 'min'")
    else
      match addEdges i n subtasks (subtasks.getD i default).dependencies edgesOut with
      | .error e => .error e
      | .ok edgesOut1 =>
        validateLoop subtasks n rest
          (if 0 < (subtasks.getD i default).dependencies.length then queue else queue ++ [i])
          edgesOut1 (degreeIn ++ [((subtasks.getD i default).dependencies.length : Int)])

/-- Decrement the in-degree of every out-edge target of the node being
processed, appending a target to the queue exactly when its degree
reaches zero. -/
def processEdges : List Nat → List Nat → List Int → (List Nat × List Int)
  | [], queue, degreeIn => (queue, degreeIn)
  | t :: rest, queue, degreeIn =>
    let degreeIn1 := degreeIn.set t (degreeIn.getD t 0 - 1)
    let queue1 := if degreeIn1.getD t 0 = 0 then queue ++ [t] else queue
    processEdges rest queue1 degreeIn1

/-- The Kahn queue loop: process the queue front to back while the head
pointer is below the queue length.  The fuel is an upper bound on the
number of iterations; `subtasks.length + 1` always suffices because the
queue never holds a node twice. -/
def kahnLoop (edgesOut : List (List Nat)) :
    Nat → List Nat → Nat → List Int → (List Nat × List Int)
  | 0, queue, _, degreeIn => (queue, degreeIn)
  | fuel + 1, queue, head, degreeIn =>
    if head < queue.length then
      let out := processEdges (edgesOut.getD (queue.getD head 0) []) queue degreeIn
      kahnLoop edgesOut fuel out.1 (head + 1) out.2
    else (queue, degreeIn)

/-- Embedding of `JudgerBase.getSubtaskOrder`: validate the dependency
graph, run Kahn's algorithm, and fail with "loop detected" when the queue
does not exhaust the subtasks. -/
def getSubtaskOrder (subtasks : List SubtaskJudge) : Except String (List Nat) :=
  match validateLoop subtasks subtasks.length (List.range subtasks.length) []
      (subtasks.map (fun _ => [])) [] with
  | .error e => .error e
  | .ok (queue, edgesOut, degreeIn) =>
    let out := kahnLoop edgesOut (subtasks.length + 1) queue 0 degreeIn
    if out.1.length < subtasks.length then .error (subtaskDepsError "loop detected")
    else .ok out.1

/-- The dependency list of subtask `v`. -/
def depsOf (subtasks : List SubtaskJudge) (v : Nat) : List Int :=
  (subtasks.getD v default).dependencies

/-- The subtasks without dependencies, in ascending index order: exactly
how the Kahn queue is seeded. -/
def seedsOf (subtasks : List SubtaskJudge) : List Nat :=
  (List.range subtasks.length).filter (fun i => (depsOf subtasks i).isEmpty)

/-- Number of dependency occurrences of subtask `v` whose source is not
yet processed. -/
def unprocessedCount (subtasks : List SubtaskJudge) (processed : List Nat) (v : Nat) : Nat :=
  ((depsOf subtasks v).filter
    (fun d => decide (d ∉ processed.map (fun p : Nat => (p : Int))))).length

/-- Acyclicity of the dependency graph, witnessed by a rank function that
strictly decreases along every dependency edge. -/
def isDAGRanked (subtasks : List SubtaskJudge) : Prop :=
  ∃ rank : Nat → Nat, ∀ v, v < subtasks.length →
    ∀ d ∈ depsOf subtasks v, rank d.toNat < rank v

/-- Characterization of the out-edge lists built by the validation pass:
`edges[d]` contains one entry `v` for every occurrence of `d` among the
dependencies of subtask `v`. -/
def edgesSpec (subtasks : List SubtaskJudge) (edges : List (List Nat)) : Prop :=
  edges.length = subtasks.length ∧
  ∀ dN, dN < subtasks.length → ∀ v,
    (edges.getD dN []).count v
      = if v < subtasks.length then (depsOf subtasks v).count ((dN : Nat) : Int) else 0

/-- Invariant of the Kahn queue loop: the queue is duplicate-free with
in-range entries, the degree vector counts the unprocessed dependency
occurrences, a zero degree means the node is queued, queued nodes have
non-positive degree, and every queued node's dependencies lie in the
processed region before it. -/
def kahnInv (subtasks : List SubtaskJudge) (queue : List Nat) (head : Nat)
    (deg : List Int) : Prop :=
  head ≤ queue.length ∧
  queue.Nodup ∧
  (∀ x ∈ queue, x < subtasks.length) ∧
  deg.length = subtasks.length ∧
  (∀ v, v < subtasks.length →
    deg.getD v 0 = (unprocessedCount subtasks (queue.take head) v : Int)) ∧
  (∀ v, v < subtasks.length → deg.getD v 0 = 0 → v ∈ queue) ∧
  (∀ v ∈ queue, deg.getD v 0 ≤ 0) ∧
  (∀ j, (hj : j < queue.length) → ∀ d ∈ depsOf subtasks (queue.get ⟨j, hj⟩),
    d.toNat ∈ queue.take (min j head))

/-- Diagnostics section of the runtime configuration. -/
structure DiagnosticsConfig where
  enabled : Bool
  maxTimeRatio : JsNum
  maxMemoryRatio : JsNum
  maxTime : JsNum
  maxMemory : JsNum
deriving Repr, Inhabited

/-- The per-submission limits the standard judger reads (`StandardJudgeParameter`). -/
structure StandardJudgeParameter where
  timeLimit : JsNum
  memoryLimit : JsNum
deriving Repr, Inhabited

/-- The diagnostics time ceiling `min(maxTimeRatio * timeLimit, maxTime)`. -/
def diagMaxTimeUsage (cfg : DiagnosticsConfig) (p : StandardJudgeParameter) : JsNum :=
  jsMin (jsMul cfg.maxTimeRatio p.timeLimit) cfg.maxTime

/-- The diagnostics memory ceiling
`min(maxMemoryRatio * memoryLimit * 1024, maxMemory)`: the parameter limit
is in MiB while the recorded usage is in KiB, hence the factor 1024. -/
def diagMaxMemoryUsage (cfg : DiagnosticsConfig) (p : StandardJudgeParameter) : JsNum :=
  jsMin (jsMul (jsMul cfg.maxMemoryRatio p.memoryLimit) (.num 1024)) cfg.maxMemory

/-- Comparison of an optional recorded value against a ceiling; a missing
value compares like `undefined` in JavaScript, that is never below the
ceiling. -/
def optJsLe (a : Option JsNum) (b : JsNum) : Bool :=
  match a with
  | some x => jsLe x b
  | none => false

/-- Eligibility of recorded details for the diagnostics rerun. -/
def diagnosticsEligible (maxT maxM : JsNum) (d : TestcaseDetails) : Bool :=
  (d.type == some TestcaseResultType.WrongAnswer
    || d.type == some TestcaseResultType.RuntimeError)
  && optJsLe d.time maxT && optJsLe d.memory maxM

/-- Inner loop of the eligibility scan: the first case index of one
subtask whose recorded details qualify. -/
def findDiagnosticCaseInSubtask (maxT maxM : JsNum) (cases : List TestcaseJudge)
    (caseResults : List CaseState) : Option Nat :=
  (List.range cases.length).find? (fun index =>
    match (caseResults.getD index default).result with
    | some d => diagnosticsEligible maxT maxM d
    | none => false)

/-- The eligibility scan of `runDiagnostics`: subtasks in declared order,
cases in declared order, first qualifying case wins. -/
def findDiagnosticCase (subtasks : List SubtaskJudge) (results : List SubtaskState)
    (maxT maxM : JsNum) : Option (Nat × Nat) :=
  (List.range subtasks.length).findSome? (fun si =>
    match findDiagnosticCaseInSubtask maxT maxM (subtasks.getD si default).cases
        (results.getD si default).cases with
    | some ci => some (si, ci)
    | none => none)

/-- Write the captured stderr into the `diagnostics` field of the selected
case's recorded details; every other field is untouched. -/
def setDetailsDiagnostics (c : CaseState) (msg : String) : CaseState :=
  { c with result := c.result.map (fun d => { d with diagnostics := some msg }) }

/-- Write the diagnostics message into one subtask state. -/
def setSubtaskDiagnostics (st : SubtaskState) (ci : Nat) (msg : String) : SubtaskState :=
  { st with cases := st.cases.set ci (setDetailsDiagnostics (st.cases.getD ci default) msg) }

/-- Write the diagnostics message into the selected case of the results. -/
def setCaseDiagnostics (results : List SubtaskState) (si ci : Nat) (msg : String) :
    List SubtaskState :=
  results.set si (setSubtaskDiagnostics (results.getD si default) ci msg)

/-- Outcome of the diagnostics driver: the (possibly updated) results plus
which external steps were attempted. -/
structure DiagnosticsOutcome where
  results : List SubtaskState
  compileAttempted : Bool
  rerunAttempted : Bool
deriving Repr

/-- Embedding of `StandardJudger.runDiagnostics`.  The compile oracle is
the outcome of `compileWithDiagnostics` (a rejected promise, or a
compilation result which the source never inspects), the judge oracle the
outcome of re-judging the selected case.  The `try`/`catch` of the source
is mirrored by returning the untouched results on either error. -/
def runDiagnostics (cfg : DiagnosticsConfig) (p : StandardJudgeParameter)
    (compileOracle : Except String CompilationResult)
    (judgeOracle : TestcaseJudge → Except String TestcaseDetails)
    (subtasks : List SubtaskJudge) (results : List SubtaskState) : DiagnosticsOutcome :=
  match findDiagnosticCase subtasks results (diagMaxTimeUsage cfg p)
      (diagMaxMemoryUsage cfg p) with
  | none => { results := results, compileAttempted := false, rerunAttempted := false }
  | some (si, ci) =>
    match compileOracle with
    | .error _ => { results := results, compileAttempted := true, rerunAttempted := false }
    | .ok _ =>
      match judgeOracle ((subtasks.getD si default).cases.getD ci default) with
      | .error _ => { results := results, compileAttempted := true, rerunAttempted := true }
      | .ok d =>
        match d.userError with
        | none => { results := results, compileAttempted := true, rerunAttempted := true }
        | some msg =>
          if msg = "" then { results := results, compileAttempted := true, rerunAttempted := true }
          else { results := setCaseDiagnostics results si ci msg,
                 compileAttempted := true, rerunAttempted := true }

/-- Eligibility of a case for diagnostics, written out as the
specification words it: verdict `WrongAnswer` or `RuntimeError`, recorded
time at most `min(maxTimeRatio * timeLimit, maxTime)` milliseconds, and
recorded memory at most `min(maxMemoryRatio * memoryLimit * 1024,
maxMemory)` KiB (the parameter limit is MiB, hence the factor 1024). -/
def specDiagnosticsEligible (cfg : DiagnosticsConfig) (p : StandardJudgeParameter)
    (d : TestcaseDetails) : Bool :=
  (d.type == some TestcaseResultType.WrongAnswer
    || d.type == some TestcaseResultType.RuntimeError)
  && optJsLe d.time (jsMin (jsMul cfg.maxTimeRatio p.timeLimit) cfg.maxTime)
  && optJsLe d.memory
      (jsMin (jsMul (jsMul cfg.maxMemoryRatio p.memoryLimit) (.num 1024)) cfg.maxMemory)

/-- The first eligible case in subtask-major, then case-major declared
order, as the specification words it: scan the flattened list of
(subtask, case) index pairs and take the first whose recorded details
qualify. -/
def specFirstEligible (cfg : DiagnosticsConfig) (p : StandardJudgeParameter)
    (subtasks : List SubtaskJudge) (results : List SubtaskState) : Option (Nat × Nat) :=
  ((List.range subtasks.length).flatMap (fun si =>
    (List.range (subtasks.getD si default).cases.length).map (fun ci => (si, ci)))).find?
    (fun pr =>
      match ((results.getD pr.1 default).cases.getD pr.2 default).result with
      | some d => specDiagnosticsEligible cfg p d
      | none => false)

/-- Details agree except possibly in the `diagnostics` field. -/
def detailsAgreeExceptDiagnostics (d d' : TestcaseDetails) : Prop :=
  d' = { d with diagnostics := d'.diagnostics }

/-- Case states agree except possibly in the diagnostics field of the
recorded details. -/
def caseAgreesExceptDiagnostics (c c' : CaseState) : Prop :=
  c'.status = c.status ∧ c'.errorMessage = c.errorMessage ∧
  ((c.result = none ∧ c'.result = none) ∨
   ∃ d d', c.result = some d ∧ c'.result = some d' ∧ detailsAgreeExceptDiagnostics d d')

/-- Subtask states agree except possibly in diagnostics fields: statuses,
scores and every other detail field are identical. -/
def subtaskAgreesExceptDiagnostics (st st' : SubtaskState) : Prop :=
  st'.status = st.status ∧ st'.score = st.score ∧ st'.cases.length = st.cases.length ∧
  ∀ i, i < st.cases.length →
    caseAgreesExceptDiagnostics (st.cases.getD i default) (st'.cases.getD i default)

/-- Testcase details whose only content is a scoring rate, as delivered by
a runner in the scenarios below. -/
def rateDetails (r : JsNum) : TestcaseDetails :=
  { type := none, time := none, memory := none, input := none, output := none,
    scoringRate := some r, userOutput := none, userError := none, spjMessage := none,
    systemMessage := none, diagnostics := none }

/-- The shared testcase of the deduplication scenario. -/
def caseC7 : TestcaseJudge :=
  { name := "c7", input := none, output := none }

/-- A testcase used in single-subtask scenarios. -/
def caseA : TestcaseJudge :=
  { name := "a", input := none, output := none }

/-- A second testcase used in single-subtask scenarios. -/
def caseB : TestcaseJudge :=
  { name := "b", input := none, output := none }

/-- Two-subtask chain used as the Kahn witness: subtask 1 depends on
subtask 0. -/
def chainSubtasks : List SubtaskJudge :=
  [{ type := .Minimum, score := .num 1, cases := [caseA], dependencies := [] },
   { type := .Minimum, score := .num 1, cases := [caseB], dependencies := [0] }]

/-- A two-case `Multiple` subtask without dependencies. -/
def taskTwoCases : SubtaskJudge :=
  { type := .Multiple, score := .num 100, cases := [caseA, caseB], dependencies := [] }

/-- Oracle of the runner-error scenario: the first case rejects, the
second would succeed with full score. -/
def oracleFirstFails : Nat → Except String TestcaseDetails
  | 0 => .error "Task runner error"
  | _ => .ok (rateDetails (.num 1))

/-- A three-case `Multiple` subtask without dependencies. -/
def taskThreeCases : SubtaskJudge :=
  { type := .Multiple, score := .num 100, cases := [caseA, caseB, caseC7],
    dependencies := [] }

/-- Oracle where case 1 yields rate zero and every other case full rate. -/
def oracleRateZeroAt1 : Nat → Except String TestcaseDetails
  | 1 => .ok (rateDetails (.num 0))
  | _ => .ok (rateDetails (.num 1))

/-- A `Summation` subtask with no cases at all. -/
def taskNoCases : SubtaskJudge :=
  { type := .Summation, score := .num 100, cases := [], dependencies := [] }

/-- A one-case `Minimum` subtask of full score 1. -/
def taskOneCase : SubtaskJudge :=
  { type := .Minimum, score := .num 1, cases := [caseA], dependencies := [] }

/-- A completed case whose delivered scoring rate is 1. -/
def doneCaseState : CaseState :=
  { status := .Done, result := some (rateDetails (.num 1)), errorMessage := none }

/-- Dependency subtask of the min-propagation scenario. -/
def depTaskW : SubtaskJudge :=
  { type := .Minimum, score := .num 1, cases := [caseB], dependencies := [] }

/-- Dependent subtask of the min-propagation scenario. -/
def mainTaskW : SubtaskJudge :=
  { type := .Minimum, score := .num 1, cases := [caseA], dependencies := [0] }

/-- Oracle where every case succeeds with full rate. -/
def oracleAllOk : Nat → Except String TestcaseDetails :=
  fun _ => .ok (rateDetails (.num 1))

/-- Recorded details of a wrong answer well inside the diagnostics
limits: 50 ms and 8192 KiB. -/
def wrongAnswerDetails : TestcaseDetails :=
  { type := some .WrongAnswer, time := some (.num 50), memory := some (.num 8192),
    input := none, output := none, scoringRate := some (.num 0), userOutput := none,
    userError := none, spjMessage := none, systemMessage := none, diagnostics := none }

/-- Results whose single case is an accepted verdict, so nothing is
eligible for diagnostics. -/
def diagResultsAccepted : List SubtaskState :=
  [{ cases := [{ status := .Done,
                 result := some { wrongAnswerDetails with type := some .Accepted },
                 errorMessage := none }],
     status := .Done, score := .num 100 }]

/-- A permissive diagnostics configuration. -/
def diagCfg : DiagnosticsConfig :=
  { enabled := true, maxTimeRatio := .num 2, maxMemoryRatio := .num 2,
    maxTime := .num 2000, maxMemory := .num 1048576 }

/-- Submission limits of the diagnostics scenario: 1000 ms, 256 MiB. -/
def diagParams : StandardJudgeParameter :=
  { timeLimit := .num 1000, memoryLimit := .num 256 }

/-- Test data of the diagnostics scenario: one subtask, one case. -/
def diagSubtasks : List SubtaskJudge :=
  [{ type := .Minimum, score := .num 100, cases := [caseA], dependencies := [] }]

/-- Results of the diagnostics scenario: the single case is a recorded
wrong answer. -/
def diagResults : List SubtaskState :=
  [{ cases := [{ status := .Done, result := some wrongAnswerDetails, errorMessage := none }],
     status := .Done, score := .num 0 }]

theorem cacheLookup_cons (k : String) (v : TestcaseDetails)
    (rest : List (String × TestcaseDetails)) (n : String) :
    cacheLookup ((k, v) :: rest) n = if k = n then some v else cacheLookup rest n := by
  by_cases h : k = n <;> simp [cacheLookup, List.find?_cons, h]

theorem cacheLookup_append (l1 l2 : List (String × TestcaseDetails)) (n : String) :
    cacheLookup (l1 ++ l2) n =
      match cacheLookup l1 n with
      | some v => some v
      | none => cacheLookup l2 n := by
  induction l1 with
  | nil => simp [cacheLookup]
  | cons p rest ih =>
    obtain ⟨k, v⟩ := p
    by_cases h : k = n <;> simp [cacheLookup_cons, h, ih]

theorem cacheLookup_map_overwrite_self (cache : List (String × TestcaseDetails))
    (n : String) (d : TestcaseDetails) (h : (cacheLookup cache n).isSome) :
    cacheLookup (cache.map (fun p => if p.1 == n then (n, d) else p)) n = some d := by
  induction cache with
  | nil => simp [cacheLookup] at h
  | cons p rest ih =>
    obtain ⟨k, v⟩ := p
    by_cases hk : k = n
    · simp [hk, cacheLookup_cons]
    · simp only [List.map_cons]
      rw [show (if (k, v).1 == n then (n, d) else (k, v)) = (k, v) by simp [hk]]
      rw [cacheLookup_cons, if_neg hk]
      rw [cacheLookup_cons, if_neg hk] at h
      exact ih h

theorem cacheLookup_map_overwrite_ne (cache : List (String × TestcaseDetails))
    (m n : String) (d : TestcaseDetails) (h : n ≠ m) :
    cacheLookup (cache.map (fun p => if p.1 == m then (m, d) else p)) n =
      cacheLookup cache n := by
  induction cache with
  | nil => simp
  | cons p rest ih =>
    obtain ⟨k, v⟩ := p
    by_cases hk : k = m
    · simp only [List.map_cons]
      rw [show (if (k, v).1 == m then (m, d) else (k, v)) = (m, d) by simp [hk]]
      rw [cacheLookup_cons, if_neg (fun hmn => h hmn.symm),
        cacheLookup_cons, if_neg (by rw [hk]; exact fun hmn => h hmn.symm), ih]
    · simp only [List.map_cons]
      rw [show (if (k, v).1 == m then (m, d) else (k, v)) = (k, v) by simp [hk]]
      rw [cacheLookup_cons, cacheLookup_cons, ih]

theorem cacheLookup_cacheSet_self (cache : List (String × TestcaseDetails))
    (n : String) (d : TestcaseDetails) :
    cacheLookup (cacheSet cache n d) n = some d := by
  unfold cacheSet
  by_cases h : (cache.find? (fun p => p.1 == n)).isSome
  · rw [if_pos h]
    refine cacheLookup_map_overwrite_self cache n d ?_
    simp only [cacheLookup]
    cases hf : cache.find? (fun p => p.1 == n) with
    | none => rw [hf] at h; simp at h
    | some p => simp
  · rw [if_neg h]
    rw [cacheLookup_append]
    have hnone : cacheLookup cache n = none := by
      simp only [cacheLookup]
      cases hf : cache.find? (fun p => p.1 == n) with
      | none => rfl
      | some p => rw [hf] at h; simp at h
    rw [hnone]
    simp [cacheLookup_cons]

theorem cacheLookup_cacheSet_ne (cache : List (String × TestcaseDetails))
    (m n : String) (d : TestcaseDetails) (h : n ≠ m) :
    cacheLookup (cacheSet cache m d) n = cacheLookup cache n := by
  unfold cacheSet
  by_cases hs : (cache.find? (fun p => p.1 == m)).isSome
  · rw [if_pos hs]
    exact cacheLookup_map_overwrite_ne cache m n d h
  · rw [if_neg hs, cacheLookup_append]
    cases hv : cacheLookup cache n with
    | some v => rfl
    | none =>
      rw [cacheLookup_cons, if_neg fun hmn => h hmn.symm]
      rfl

theorem cacheLookup_wrapperStep_isSome (s : WrapperState) (e : WrapperEvent) (n : String)
    (h : (cacheLookup s.cache n).isSome) :
    (cacheLookup (wrapperStep s e).cache n).isSome := by
  cases e with
  | invoke c =>
    by_cases hc : (cacheLookup s.cache c.name).isSome <;>
      simp [wrapperStep, hc, h]
  | resolveOk m d =>
    by_cases hm : n = m
    · subst hm; simp [wrapperStep, cacheLookup_cacheSet_self]
    · simpa [wrapperStep, cacheLookup_cacheSet_ne s.cache m n d hm] using h
  | resolveErr m e' => simpa [wrapperStep] using h

theorem callsFor_wrapperStep_of_cached (s : WrapperState) (e : WrapperEvent) (n : String)
    (h : (cacheLookup s.cache n).isSome) :
    callsFor (wrapperStep s e) n = callsFor s n := by
  cases e with
  | invoke c =>
    by_cases hc : (cacheLookup s.cache c.name).isSome
    · simp [wrapperStep, hc]
    · have hne : c.name ≠ n := by
        intro heq; rw [heq] at hc; exact hc h
      simp [wrapperStep, hc, callsFor, List.count_append, List.count_singleton, hne]
  | resolveOk m d => rfl
  | resolveErr m e' => rfl

theorem callsFor_runWrapperTrace_of_cached (t : List WrapperEvent) (s : WrapperState)
    (n : String) (h : (cacheLookup s.cache n).isSome) :
    callsFor (runWrapperTrace s t) n = callsFor s n := by
  induction t generalizing s with
  | nil => rfl
  | cons e rest ih =>
    rw [runWrapperTrace]
    rw [ih (wrapperStep s e) (cacheLookup_wrapperStep_isSome s e n h)]
    exact callsFor_wrapperStep_of_cached s e n h

theorem runWrapperTrace_append (s : WrapperState) (a b : List WrapperEvent) :
    runWrapperTrace s (a ++ b) = runWrapperTrace (runWrapperTrace s a) b := by
  induction a generalizing s with
  | nil => rfl
  | cons e rest ih => rw [List.cons_append, runWrapperTrace, runWrapperTrace, ih]

/-- C1 (counterexample): the deduplication cache of `judgeTestcaseWrapper`
stores completed results only, so two referents of case "c7" that both
invoke the wrapper while the first evaluation is still outstanding cause
two underlying `judgeTestcase` calls. -/
theorem dedup_in_flight_two_calls :
    validWrapperTrace initWrapperState
      [WrapperEvent.invoke caseC7, WrapperEvent.invoke caseC7] = true ∧
    callsFor (runWrapperTrace initWrapperState
      [WrapperEvent.invoke caseC7, WrapperEvent.invoke caseC7]) "c7" = 2 := by
  exact ⟨rfl, rfl⟩

/-- C1 (amended): the per-run deduplication map shares completed
evaluations: once an evaluation of a name has resolved successfully, no
later wrapper invocation of that name enqueues another runner task — the
number of underlying calls for the name never grows after the successful
resolution. -/
theorem dedup_no_calls_after_completion (s : WrapperState) (t1 t2 : List WrapperEvent)
    (n : String) (d : TestcaseDetails) :
    callsFor (runWrapperTrace s (t1 ++ WrapperEvent.resolveOk n d :: t2)) n
      = callsFor (runWrapperTrace s (t1 ++ [WrapperEvent.resolveOk n d])) n := by
  have h1 : t1 ++ WrapperEvent.resolveOk n d :: t2
      = (t1 ++ [WrapperEvent.resolveOk n d]) ++ t2 := by simp
  rw [h1, runWrapperTrace_append]
  apply callsFor_runWrapperTrace_of_cached
  have h2 : (runWrapperTrace s (t1 ++ [WrapperEvent.resolveOk n d])).cache
      = cacheSet (runWrapperTrace s t1).cache n d := by
    rw [runWrapperTrace_append]; rfl
  rw [h2, cacheLookup_cacheSet_self]
  rfl

/-- C9: a rejected `judgeTestcase` promise is not stored in the
deduplication cache, so the next referent of the same name invokes
`judgeTestcase` again, while a successful evaluation is stored and every
later referent reads the cached details without a new call. -/
theorem failed_evaluation_retried_success_shared (s : WrapperState) (cs : TestcaseJudge)
    (e : String) (d : TestcaseDetails) (h : cacheLookup s.cache cs.name = none) :
    ((wrapperStep (wrapperStep s (WrapperEvent.invoke cs))
        (WrapperEvent.resolveErr cs.name e)).cache = s.cache ∧
     callsFor (wrapperStep (wrapperStep (wrapperStep s (WrapperEvent.invoke cs))
        (WrapperEvent.resolveErr cs.name e)) (WrapperEvent.invoke cs)) cs.name
       = callsFor s cs.name + 2) ∧
    (callsFor (wrapperStep (wrapperStep (wrapperStep s (WrapperEvent.invoke cs))
        (WrapperEvent.resolveOk cs.name d)) (WrapperEvent.invoke cs)) cs.name
       = callsFor s cs.name + 1 ∧
     cacheLookup (wrapperStep (wrapperStep (wrapperStep s (WrapperEvent.invoke cs))
        (WrapperEvent.resolveOk cs.name d)) (WrapperEvent.invoke cs)).cache cs.name
       = some d) := by
  have hmiss : ¬ (cacheLookup s.cache cs.name).isSome := by simp [h]
  constructor
  · constructor
    · simp [wrapperStep, hmiss]
    · simp [wrapperStep, hmiss, h, callsFor, List.count_append]
  · have hc1 : (wrapperStep s (WrapperEvent.invoke cs)).cache = s.cache := by
      simp [wrapperStep, hmiss]
    have hc2 : (wrapperStep (wrapperStep s (WrapperEvent.invoke cs))
        (WrapperEvent.resolveOk cs.name d)).cache = cacheSet s.cache cs.name d := by
      simp [wrapperStep, hmiss]
    have hhit : (cacheLookup (cacheSet s.cache cs.name d) cs.name).isSome := by
      rw [cacheLookup_cacheSet_self]; rfl
    constructor
    · simp [wrapperStep, hmiss, hc2, hhit, callsFor, List.count_append]
    · simp [wrapperStep, hmiss, hc2, hhit, cacheLookup_cacheSet_self]

/-- Witness for C9 at the empty wrapper state and case "c7". -/
theorem failed_evaluation_retried_success_shared_witness :
    cacheLookup initWrapperState.cache caseC7.name = none ∧
    (((wrapperStep (wrapperStep initWrapperState (WrapperEvent.invoke caseC7))
        (WrapperEvent.resolveErr caseC7.name "boom")).cache = initWrapperState.cache ∧
      callsFor (wrapperStep (wrapperStep (wrapperStep initWrapperState
          (WrapperEvent.invoke caseC7)) (WrapperEvent.resolveErr caseC7.name "boom"))
        (WrapperEvent.invoke caseC7)) caseC7.name = callsFor initWrapperState caseC7.name + 2) ∧
     (callsFor (wrapperStep (wrapperStep (wrapperStep initWrapperState
          (WrapperEvent.invoke caseC7)) (WrapperEvent.resolveOk caseC7.name
          (rateDetails (.num 1)))) (WrapperEvent.invoke caseC7)) caseC7.name
        = callsFor initWrapperState caseC7.name + 1 ∧
      cacheLookup (wrapperStep (wrapperStep (wrapperStep initWrapperState
          (WrapperEvent.invoke caseC7)) (WrapperEvent.resolveOk caseC7.name
          (rateDetails (.num 1)))) (WrapperEvent.invoke caseC7)).cache caseC7.name
        = some (rateDetails (.num 1)))) :=
  ⟨rfl, failed_evaluation_retried_success_shared initWrapperState caseC7 "boom"
    (rateDetails (.num 1)) rfl⟩

theorem jsMul_num (a b : ℚ) : jsMul (.num a) (.num b) = .num (a * b) := rfl

theorem jsAdd_num (a b : ℚ) : jsAdd (.num a) (.num b) = .num (a + b) := rfl

theorem detailsAgreeExceptDiagnostics_refl (d : TestcaseDetails) :
    detailsAgreeExceptDiagnostics d d := rfl

theorem caseAgreesExceptDiagnostics_refl (c : CaseState) :
    caseAgreesExceptDiagnostics c c := by
  refine ⟨rfl, rfl, ?_⟩
  cases hr : c.result with
  | none => exact Or.inl ⟨rfl, rfl⟩
  | some d => exact Or.inr ⟨d, d, rfl, rfl, detailsAgreeExceptDiagnostics_refl d⟩

theorem subtaskAgreesExceptDiagnostics_refl (st : SubtaskState) :
    subtaskAgreesExceptDiagnostics st st :=
  ⟨rfl, rfl, rfl, fun _ _ => caseAgreesExceptDiagnostics_refl _⟩

theorem caseAgrees_setDetailsDiagnostics (c : CaseState) (msg : String) :
    caseAgreesExceptDiagnostics c (setDetailsDiagnostics c msg) := by
  refine ⟨rfl, rfl, ?_⟩
  cases hr : c.result with
  | none => exact Or.inl ⟨rfl, by simp [setDetailsDiagnostics, hr]⟩
  | some d =>
    refine Or.inr ⟨d, { d with diagnostics := some msg }, rfl, ?_, rfl⟩
    simp [setDetailsDiagnostics, hr]

theorem subtaskAgrees_setSubtaskDiagnostics (st : SubtaskState) (ci : Nat) (msg : String) :
    subtaskAgreesExceptDiagnostics st (setSubtaskDiagnostics st ci msg) := by
  refine ⟨rfl, rfl, by simp [setSubtaskDiagnostics], ?_⟩
  intro i hi
  by_cases hic : ci = i
  · subst hic
    have hget : (setSubtaskDiagnostics st ci msg).cases.getD ci default
        = setDetailsDiagnostics (st.cases.getD ci default) msg := by
      show (st.cases.set ci (setDetailsDiagnostics (st.cases.getD ci default) msg)).getD
        ci default = _
      rw [List.getD_eq_getElem?_getD, List.getElem?_set_self hi]
      rfl
    rw [hget]
    exact caseAgrees_setDetailsDiagnostics _ msg
  · have hget : (setSubtaskDiagnostics st ci msg).cases.getD i default
        = st.cases.getD i default := by
      show (st.cases.set ci (setDetailsDiagnostics (st.cases.getD ci default) msg)).getD
        i default = _
      rw [List.getD_eq_getElem?_getD, List.getElem?_set_ne hic, ← List.getD_eq_getElem?_getD]
    rw [hget]
    exact caseAgreesExceptDiagnostics_refl _

theorem setCaseDiagnostics_agrees (results : List SubtaskState) (si ci : Nat) (msg : String) :
    (setCaseDiagnostics results si ci msg).length = results.length ∧
    ∀ i, i < results.length →
      subtaskAgreesExceptDiagnostics (results.getD i default)
        ((setCaseDiagnostics results si ci msg).getD i default) := by
  constructor
  · simp [setCaseDiagnostics]
  · intro i hi
    by_cases his : si = i
    · subst his
      have hget : (setCaseDiagnostics results si ci msg).getD si default
          = setSubtaskDiagnostics (results.getD si default) ci msg := by
        show (results.set si (setSubtaskDiagnostics (results.getD si default) ci msg)).getD
          si default = _
        rw [List.getD_eq_getElem?_getD, List.getElem?_set_self hi]
        rfl
      rw [hget]
      exact subtaskAgrees_setSubtaskDiagnostics _ ci msg
    · have hget : (setCaseDiagnostics results si ci msg).getD i default
          = results.getD i default := by
        show (results.set si (setSubtaskDiagnostics (results.getD si default) ci msg)).getD
          i default = _
        rw [List.getD_eq_getElem?_getD, List.getElem?_set_ne his, ← List.getD_eq_getElem?_getD]
      rw [hget]
      exact subtaskAgreesExceptDiagnostics_refl _

theorem runDiagnostics_results_shape (cfg : DiagnosticsConfig) (p : StandardJudgeParameter)
    (cO : Except String CompilationResult)
    (jO : TestcaseJudge → Except String TestcaseDetails)
    (subtasks : List SubtaskJudge) (results : List SubtaskState) :
    (runDiagnostics cfg p cO jO subtasks results).results = results ∨
    ∃ si ci msg, (runDiagnostics cfg p cO jO subtasks results).results
      = setCaseDiagnostics results si ci msg := by
  cases hf : findDiagnosticCase subtasks results (diagMaxTimeUsage cfg p)
      (diagMaxMemoryUsage cfg p) with
  | none => left; simp only [runDiagnostics, hf]
  | some pr =>
    obtain ⟨si, ci⟩ := pr
    cases cO with
    | error e => left; simp only [runDiagnostics, hf]
    | ok cr =>
      cases hj : jO ((subtasks.getD si default).cases.getD ci default) with
      | error e => left; simp only [runDiagnostics, hf, hj]
      | ok d =>
        cases hu : d.userError with
        | none => left; simp only [runDiagnostics, hf, hj, hu]
        | some msg =>
          by_cases hm : msg = ""
          · left; simp only [runDiagnostics, hf, hj, hu, if_pos hm]
          · right
            exact ⟨si, ci, msg, by simp only [runDiagnostics, hf, hj, hu, if_neg hm]⟩

/-- C8 (amended): diagnostics never changes the primary verdict: every
error from the diagnostics pipeline is absorbed, the statuses, error
messages, verdict types and scores of the primary result are preserved
(only a diagnostics field may be filled in), and a rejected
`compileWithDiagnostics` promise abandons the rerun.  (An unsuccessful
compilation result, by contrast, does not abandon it: see the
counterexample.) -/
theorem diagnostics_never_changes_primary_verdict (cfg : DiagnosticsConfig)
    (p : StandardJudgeParameter) (cO : Except String CompilationResult)
    (jO : TestcaseJudge → Except String TestcaseDetails)
    (subtasks : List SubtaskJudge) (results : List SubtaskState) :
    (runDiagnostics cfg p cO jO subtasks results).results.length = results.length ∧
    (∀ i, i < results.length →
      subtaskAgreesExceptDiagnostics (results.getD i default)
        ((runDiagnostics cfg p cO jO subtasks results).results.getD i default)) ∧
    (∀ e, (runDiagnostics cfg p (Except.error e) jO subtasks results).rerunAttempted
      = false) := by
  refine ⟨?_, ?_, ?_⟩
  · cases runDiagnostics_results_shape cfg p cO jO subtasks results with
    | inl h => rw [h]
    | inr h => obtain ⟨si, ci, msg, h⟩ := h; rw [h]; exact (setCaseDiagnostics_agrees results si ci msg).1
  · intro i hi
    cases runDiagnostics_results_shape cfg p cO jO subtasks results with
    | inl h => rw [h]; exact subtaskAgreesExceptDiagnostics_refl _
    | inr h =>
      obtain ⟨si, ci, msg, h⟩ := h
      rw [h]
      exact (setCaseDiagnostics_agrees results si ci msg).2 i hi
  · intro e
    cases hf : findDiagnosticCase subtasks results (diagMaxTimeUsage cfg p)
        (diagMaxMemoryUsage cfg p) with
    | none => simp [runDiagnostics, hf]
    | some pr => obtain ⟨si, ci⟩ := pr; simp [runDiagnostics, hf]

/-- C8 (counterexample): an unsuccessful diagnostics compilation result
does not abandon the rerun — `runDiagnostics` awaits
`compileWithDiagnostics` but never inspects its result, so the selected
case is re-judged even though the instrumented compile failed. -/
theorem diagnostics_compile_failure_still_reruns :
    (runDiagnostics diagCfg diagParams
      (Except.ok { status := TaskStatus.Failed, message := some "CE" })
      (fun _ => Except.error "runner error") diagSubtasks diagResults).rerunAttempted
      = true := by
  have ht : diagMaxTimeUsage diagCfg diagParams = .num 2000 := by
    have h1 : (2 * 1000 : ℚ) = 2000 := by norm_num
    have h2 : jsLt (.num (2000 : ℚ)) (.num 2000) = false := by decide
    simp [diagMaxTimeUsage, diagCfg, diagParams, jsMul_num, h1, jsMin, h2]
  have hm : diagMaxMemoryUsage diagCfg diagParams = .num 524288 := by
    have h1 : (2 * 256 * 1024 : ℚ) = 524288 := by norm_num
    have h2 : jsLt (.num (524288 : ℚ)) (.num 1048576) = true := by decide
    simp [diagMaxMemoryUsage, diagCfg, diagParams, jsMul_num, h1, jsMin, h2]
  simp only [runDiagnostics, ht, hm]
  decide

theorem markSkipped_markSkipped (c : CaseState) :
    markSkipped (markSkipped c) = markSkipped c := rfl

theorem skipLoop_append (u : List CaseState → JsNum)
    (o : Nat → Except String TestcaseDetails) (a b : List Nat) (states : List CaseState)
    (skipped : Bool) (invoked : List Nat) (trace : List JsNum) :
    skipLoop u o (a ++ b) states skipped invoked trace =
      skipLoop u o b (skipLoop u o a states skipped invoked trace).1
        (skipLoop u o a states skipped invoked trace).2.1
        (skipLoop u o a states skipped invoked trace).2.2.1
        (skipLoop u o a states skipped invoked trace).2.2.2 := by
  induction a generalizing states skipped invoked trace with
  | nil => rfl
  | cons i rest ih =>
    rw [List.cons_append]
    show skipLoop u o (i :: (rest ++ b)) states skipped invoked trace = _
    cases skipped with
    | true =>
      rw [skipLoop, if_pos rfl, skipLoop, if_pos rfl]
      exact ih _ _ _ _
    | false =>
      rw [skipLoop, if_neg (by simp), skipLoop, if_neg (by simp)]
      cases o i with
      | ok d => exact ih _ _ _ _
      | error e => exact ih _ _ _ _

theorem skipLoop_length (u : List CaseState → JsNum)
    (o : Nat → Except String TestcaseDetails) (is : List Nat) (states : List CaseState)
    (skipped : Bool) (invoked : List Nat) (trace : List JsNum) :
    (skipLoop u o is states skipped invoked trace).1.length = states.length := by
  induction is generalizing states skipped invoked trace with
  | nil => rfl
  | cons i rest ih =>
    cases skipped with
    | true =>
      rw [skipLoop, if_pos rfl, ih]
      exact List.length_set states i _
    | false =>
      rw [skipLoop, if_neg (by simp)]
      cases o i with
      | ok d => rw [ih]; exact List.length_set states i _
      | error e => rw [ih]; exact List.length_set states i _

theorem skipLoop_notmem_getD (u : List CaseState → JsNum)
    (o : Nat → Except String TestcaseDetails) (is : List Nat) (states : List CaseState)
    (skipped : Bool) (invoked : List Nat) (trace : List JsNum) (j : Nat) (hj : j ∉ is) :
    (skipLoop u o is states skipped invoked trace).1.getD j default
      = states.getD j default := by
  induction is generalizing states skipped invoked trace with
  | nil => rfl
  | cons i rest ih =>
    have hji : i ≠ j := fun h => hj (h ▸ List.mem_cons_self i rest)
    have hjr : j ∉ rest := fun h => hj (List.mem_cons_of_mem i h)
    have hset : ∀ c : CaseState, (states.set i c).getD j default = states.getD j default := by
      intro c
      rw [List.getD_eq_getElem?_getD, List.getElem?_set_ne hji, ← List.getD_eq_getElem?_getD]
    cases skipped with
    | true => rw [skipLoop, if_pos rfl, ih _ _ _ _ hjr, hset]
    | false =>
      rw [skipLoop, if_neg (by simp)]
      cases o i with
      | ok d => rw [ih _ _ _ _ hjr, hset]
      | error e => rw [ih _ _ _ _ hjr, hset]

theorem skipLoop_true_frozen (u : List CaseState → JsNum)
    (o : Nat → Except String TestcaseDetails) (is : List Nat) (states : List CaseState)
    (invoked : List Nat) (trace : List JsNum) :
    (skipLoop u o is states true invoked trace).2.1 = true ∧
    (skipLoop u o is states true invoked trace).2.2.1 = invoked ∧
    (skipLoop u o is states true invoked trace).2.2.2 = trace := by
  induction is generalizing states with
  | nil => exact ⟨rfl, rfl, rfl⟩
  | cons i rest ih =>
    rw [skipLoop, if_pos rfl]
    exact ih _

theorem skipLoop_true_skipped_status (u : List CaseState → JsNum)
    (o : Nat → Except String TestcaseDetails) (is : List Nat) (states : List CaseState)
    (invoked : List Nat) (trace : List JsNum) (j : Nat) (hj : j ∈ is)
    (hlen : j < states.length) :
    ((skipLoop u o is states true invoked trace).1.getD j default).status
      = TaskStatus.Skipped := by
  induction is generalizing states with
  | nil => exact absurd hj (List.not_mem_nil j)
  | cons i rest ih =>
    rw [skipLoop, if_pos rfl]
    by_cases hjr : j ∈ rest
    · exact ih _ hjr (by rw [List.length_set]; exact hlen)
    · have hji : j = i := by
        cases List.mem_cons.mp hj with
        | inl h => exact h
        | inr h => exact absurd h hjr
      subst hji
      rw [skipLoop_notmem_getD _ _ _ _ _ _ _ _ hjr]
      rw [List.getD_eq_getElem?_getD, List.getElem?_set_self hlen]
      rfl

theorem skipLoop_invoked_mem (u : List CaseState → JsNum)
    (o : Nat → Except String TestcaseDetails) (is : List Nat) (states : List CaseState)
    (skipped : Bool) (invoked : List Nat) (trace : List JsNum) (j : Nat)
    (hj : j ∈ (skipLoop u o is states skipped invoked trace).2.2.1) :
    j ∈ invoked ∨ j ∈ is := by
  induction is generalizing states skipped invoked trace with
  | nil => exact Or.inl hj
  | cons i rest ih =>
    cases skipped with
    | true =>
      rw [skipLoop, if_pos rfl] at hj
      cases ih _ _ _ _ hj with
      | inl h => exact Or.inl h
      | inr h => exact Or.inr (List.mem_cons_of_mem i h)
    | false =>
      rw [skipLoop, if_neg (by simp)] at hj
      have hstep : ∀ st' sk',
          j ∈ (skipLoop u o rest st' sk' (invoked ++ [i]) (trace ++ [u st'])).2.2.1 →
          j ∈ invoked ∨ j ∈ i :: rest := by
        intro st' sk' hmem
        cases ih st' sk' (invoked ++ [i]) (trace ++ [u st']) hmem with
        | inl h =>
          cases List.mem_append.mp h with
          | inl h2 => exact Or.inl h2
          | inr h2 =>
            have : j = i := by simpa using h2
            exact Or.inr (this ▸ List.mem_cons_self i rest)
        | inr h => exact Or.inr (List.mem_cons_of_mem i h)
      cases ho : o i with
      | ok d =>
        rw [ho] at hj
        dsimp only at hj
        exact hstep _ _ hj
      | error e =>
        rw [ho] at hj
        dsimp only at hj
        exact hstep _ _ hj

theorem skipLoop_trigger_skips_rest (u : List CaseState → JsNum)
    (o : Nat → Except String TestcaseDetails) (l1 l2 : List Nat) (i : Nat)
    (states : List CaseState) (b : Bool) (invoked : List Nat) (trace : List JsNum)
    (htrig : ∀ d, o i = Except.ok d → scoreTriggersSkip d.scoringRate = true)
    (j : Nat) (hj2 : j ∈ l2) (hji : j ≠ i) (hj1 : j ∉ l1) (hjinv : j ∉ invoked)
    (hlen : j < states.length) :
    ((skipLoop u o (l1 ++ i :: l2) states b invoked trace).1.getD j default).status
      = TaskStatus.Skipped ∧
    j ∉ (skipLoop u o (l1 ++ i :: l2) states b invoked trace).2.2.1 := by
  rw [skipLoop_append]
  set mid := skipLoop u o l1 states b invoked trace with hmid
  have hlen1 : j < mid.1.length := by rw [hmid, skipLoop_length]; exact hlen
  have hinv1 : j ∉ mid.2.2.1 := by
    intro hmem
    cases skipLoop_invoked_mem u o l1 states b invoked trace j hmem with
    | inl h => exact hjinv h
    | inr h => exact hj1 h
  have hcons : ∀ st' : List CaseState, ∀ inv' : List Nat, ∀ tr' : List JsNum,
      j < st'.length → j ∉ inv' →
      ((skipLoop u o l2 st' true inv' tr').1.getD j default).status
        = TaskStatus.Skipped ∧ j ∉ (skipLoop u o l2 st' true inv' tr').2.2.1 := by
    intro st' inv' tr' hl hv
    refine ⟨skipLoop_true_skipped_status u o l2 st' inv' tr' j hj2 hl, ?_⟩
    rw [(skipLoop_true_frozen u o l2 st' inv' tr').2.1]
    exact hv
  cases hb : mid.2.1 with
  | true =>
    rw [skipLoop, if_pos rfl]
    have hlen2 : j < (mid.1.set i (markSkipped (mid.1.getD i default))).length := by
      rw [List.length_set]; exact hlen1
    exact hcons _ _ _ hlen2 hinv1
  | false =>
    rw [skipLoop, if_neg (by simp)]
    cases ho : o i with
    | ok d =>
      dsimp only
      rw [htrig d ho]
      have hlen2 : j < (mid.1.set i (markDone (mid.1.getD i default) d)).length := by
        rw [List.length_set]; exact hlen1
      refine hcons _ _ _ hlen2 ?_
      intro hmem
      cases List.mem_append.mp hmem with
      | inl h => exact hinv1 h
      | inr h => exact hji (by simpa using h)
    | error e =>
      have hlen2 : j < (mid.1.set i (markFailed (mid.1.getD i default) e)).length := by
        rw [List.length_set]; exact hlen1
      refine hcons _ _ _ hlen2 ?_
      intro hmem
      cases List.mem_append.mp hmem with
      | inl h => exact hinv1 h
      | inr h => exact hji (by simpa using h)

theorem range_decompose (i n : Nat) (hin : i < n) :
    List.range n = List.range i ++ i :: (List.range (n - i - 1)).map (fun x => i + 1 + x) := by
  conv_lhs => rw [show n = i + (n - i) from by omega, List.range_add]
  congr 1
  conv_lhs => rw [show n - i = (n - i - 1) + 1 from by omega, List.range_succ_eq_map]
  simp only [List.map_cons, Nat.add_zero, List.map_map]
  congr 1
  apply List.map_congr_left
  intro x _
  simp only [Function.comp_apply, Nat.succ_eq_add_one]
  omega

theorem runSkippableSubtask_cases (allSubtasks : List SubtaskJudge) (allScores : List JsNum)
    (task : SubtaskJudge) (oracle : Nat → Except String TestcaseDetails) :
    (runSkippableSubtask allSubtasks allScores task oracle).cases
      = (skipLoop (subtaskUpdate allSubtasks allScores task) oracle
          (List.range task.cases.length) (task.cases.map (fun _ => initialCaseState task.type))
          (initialSkip allSubtasks allScores task) [] []).1 := rfl

theorem runSkippableSubtask_invoked (allSubtasks : List SubtaskJudge) (allScores : List JsNum)
    (task : SubtaskJudge) (oracle : Nat → Except String TestcaseDetails) :
    (runSkippableSubtask allSubtasks allScores task oracle).invoked
      = (skipLoop (subtaskUpdate allSubtasks allScores task) oracle
          (List.range task.cases.length) (task.cases.map (fun _ => initialCaseState task.type))
          (initialSkip allSubtasks allScores task) [] []).2.2.1 := rfl

theorem runSkippableSubtask_score (allSubtasks : List SubtaskJudge) (allScores : List JsNum)
    (task : SubtaskJudge) (oracle : Nat → Except String TestcaseDetails) :
    (runSkippableSubtask allSubtasks allScores task oracle).score
      = subtaskUpdate allSubtasks allScores task
          (runSkippableSubtask allSubtasks allScores task oracle).cases := rfl

/-- C6: in a skippable subtask the cases run sequentially in declared
order, and once case `i` yields a scoring rate that is null, `NaN` or
zero, every later case of the subtask ends `Skipped` and is never handed
to the testcase wrapper (no evaluation, no runner call). -/
theorem zero_rate_skips_rest (allSubtasks : List SubtaskJudge) (allScores : List JsNum)
    (task : SubtaskJudge) (oracle : Nat → Except String TestcaseDetails)
    (i : Nat) (d : TestcaseDetails) (hoc : oracle i = Except.ok d)
    (htrig : scoreTriggersSkip d.scoringRate = true) :
    ∀ j, i < j → j < task.cases.length →
      ((((runSkippableSubtask allSubtasks allScores task oracle).cases.getD j
          default).status = TaskStatus.Skipped) ∧
       j ∉ (runSkippableSubtask allSubtasks allScores task oracle).invoked) := by
  intro j hij hjn
  have hin : i < task.cases.length := lt_trans hij hjn
  rw [runSkippableSubtask_cases, runSkippableSubtask_invoked,
    range_decompose i task.cases.length hin]
  have hj2 : j ∈ (List.range (task.cases.length - i - 1)).map (fun x => i + 1 + x) := by
    refine List.mem_map.mpr ⟨j - i - 1, List.mem_range.mpr (by omega), by omega⟩
  have hlen : j < (task.cases.map (fun _ => initialCaseState task.type)).length := by
    rw [List.length_map]; exact hjn
  exact skipLoop_trigger_skips_rest _ oracle _ _ i _ _ [] [] (fun d' hd' => by
      rw [hoc] at hd'
      cases hd'
      exact htrig)
    j hj2 (by omega) (by simp [List.mem_range]; omega) (by simp) hlen

/-- Witness for C6: a three-case `Multiple` subtask where the second case
yields rate zero leaves the third case skipped and never invoked. -/
theorem zero_rate_skips_rest_witness :
    (oracleRateZeroAt1 1 = Except.ok (rateDetails (.num 0)) ∧
     scoreTriggersSkip (rateDetails (.num 0)).scoringRate = true) ∧
    ((((runSkippableSubtask [taskThreeCases] [] taskThreeCases oracleRateZeroAt1).cases.getD 2
        default).status = TaskStatus.Skipped) ∧
     2 ∉ (runSkippableSubtask [taskThreeCases] [] taskThreeCases oracleRateZeroAt1).invoked) :=
  ⟨⟨rfl, by decide⟩,
    zero_rate_skips_rest [taskThreeCases] [] taskThreeCases oracleRateZeroAt1 1
      (rateDetails (.num 0)) rfl (by decide) 2 (by decide) (by decide)⟩

theorem jsMin_nan_left (b : JsNum) : jsMin .nan b = .nan := by
  simp [jsMin]

theorem skipLoop_nontrigger_flag (u : List CaseState → JsNum)
    (o : Nat → Except String TestcaseDetails) (is : List Nat) (states : List CaseState)
    (invoked : List Nat) (trace : List JsNum)
    (h : ∀ k ∈ is, ∃ dk, o k = Except.ok dk ∧ scoreTriggersSkip dk.scoringRate = false) :
    (skipLoop u o is states false invoked trace).2.1 = false := by
  induction is generalizing states invoked trace with
  | nil => rfl
  | cons i rest ih =>
    obtain ⟨d, hd, htr⟩ := h i (List.mem_cons_self i rest)
    rw [skipLoop, if_neg (by simp), hd]
    dsimp only
    rw [htr]
    exact ih _ _ _ (fun k hk => h k (List.mem_cons_of_mem i hk))

theorem updateSubtaskScore_of_failed (task : SubtaskJudge) (cases : List CaseState)
    (i : Nat) (hi : i < cases.length)
    (hf : (cases.getD i default).status = TaskStatus.Failed) :
    updateSubtaskScore task cases = .nan := by
  have hmem : cases.getD i default ∈ cases := by
    rw [List.getD_eq_getElem?_getD, List.getElem?_eq_getElem hi]
    exact List.getElem_mem hi
  have hany : cases.any (fun c => decide (c.status = TaskStatus.Failed)) = true :=
    List.any_eq_true.mpr ⟨cases.getD i default, hmem,
      by simp only [decide_eq_true_eq]; exact hf⟩
  rw [updateSubtaskScore, if_pos hany]

theorem subtaskUpdate_of_failed (allSubtasks : List SubtaskJudge) (allScores : List JsNum)
    (task : SubtaskJudge) (cases : List CaseState) (i : Nat) (hi : i < cases.length)
    (hf : (cases.getD i default).status = TaskStatus.Failed) :
    subtaskUpdate allSubtasks allScores task cases = .nan := by
  rw [subtaskUpdate]
  by_cases ht : task.type = SubtaskScoringType.Minimum
  · rw [if_pos ht, updateSubtaskScore_of_failed task cases i hi hf, jsMin_nan_left]
  · rw [if_neg ht, updateSubtaskScore_of_failed task cases i hi hf]

/-- C2 (amended): in a skippable subtask, a case whose `judgeTestcase`
call rejects is marked `Failed` (not `Skipped`) with the error message
recorded, but because the local `score` variable keeps its initial value
`0`, the skip check fires: every later case of the subtask ends `Skipped`
without being evaluated, and the subtask's score becomes `NaN`. -/
theorem failed_case_sets_skip (allSubtasks : List SubtaskJudge) (allScores : List JsNum)
    (task : SubtaskJudge) (oracle : Nat → Except String TestcaseDetails)
    (i : Nat) (e : String) (hi : i < task.cases.length)
    (hns : initialSkip allSubtasks allScores task = false)
    (hpre : ∀ k, k < i → ∃ dk, oracle k = Except.ok dk ∧
      scoreTriggersSkip dk.scoringRate = false)
    (herr : oracle i = Except.error e) :
    (((runSkippableSubtask allSubtasks allScores task oracle).cases.getD i default).status
        = TaskStatus.Failed) ∧
    (((runSkippableSubtask allSubtasks allScores task oracle).cases.getD i default).errorMessage
        = some e) ∧
    (∀ j, i < j → j < task.cases.length →
      ((((runSkippableSubtask allSubtasks allScores task oracle).cases.getD j
          default).status = TaskStatus.Skipped) ∧
       j ∉ (runSkippableSubtask allSubtasks allScores task oracle).invoked)) ∧
    (runSkippableSubtask allSubtasks allScores task oracle).score = .nan := by
  have hfailed : ((runSkippableSubtask allSubtasks allScores task oracle).cases.getD i
      default) = markFailed ((task.cases.map (fun _ => initialCaseState task.type)).getD i
      default) e := by
    rw [runSkippableSubtask_cases, range_decompose i task.cases.length hi, skipLoop_append]
    set u := subtaskUpdate allSubtasks allScores task
    set init := task.cases.map (fun _ => initialCaseState task.type)
    set mid := skipLoop u oracle (List.range i) init
      (initialSkip allSubtasks allScores task) [] [] with hmid
    have hnotmem1 : i ∉ List.range i := by simp [List.mem_range]
    have hmidstate : mid.1.getD i default = init.getD i default := by
      rw [hmid]
      exact skipLoop_notmem_getD _ _ _ _ _ _ _ _ hnotmem1
    have hmidflag : mid.2.1 = false := by
      rw [hmid, hns]
      apply skipLoop_nontrigger_flag
      intro k hk
      exact hpre k (List.mem_range.mp hk)
    rw [hmidflag, skipLoop, if_neg (by simp), herr]
    dsimp only
    have hnotmem2 : i ∉ (List.range (task.cases.length - i - 1)).map (fun x => i + 1 + x) := by
      intro hmem
      obtain ⟨x, _, hx⟩ := List.mem_map.mp hmem
      omega
    rw [skipLoop_notmem_getD _ _ _ _ _ _ _ _ hnotmem2]
    have hlt : i < mid.1.length := by
      rw [hmid, skipLoop_length, List.length_map]
      exact hi
    rw [List.getD_eq_getElem?_getD, List.getElem?_set_self hlt, Option.getD_some, hmidstate]
  have hinitget : (task.cases.map (fun _ => initialCaseState task.type)).getD i default
      = initialCaseState task.type := by
    rw [List.getD_eq_getElem?_getD, List.getElem?_map]
    rw [List.getElem?_eq_getElem hi]
    rfl
  refine ⟨?_, ?_, ?_, ?_⟩
  · rw [hfailed]; rfl
  · rw [hfailed, hinitget]; rfl
  · intro j hij hjn
    rw [runSkippableSubtask_cases, runSkippableSubtask_invoked,
      range_decompose i task.cases.length hi]
    have hj2 : j ∈ (List.range (task.cases.length - i - 1)).map (fun x => i + 1 + x) := by
      refine List.mem_map.mpr ⟨j - i - 1, List.mem_range.mpr (by omega), by omega⟩
    have hlen : j < (task.cases.map (fun _ => initialCaseState task.type)).length := by
      rw [List.length_map]; exact hjn
    exact skipLoop_trigger_skips_rest _ oracle _ _ i _ _ [] []
      (fun d' hd' => by rw [herr] at hd'; cases hd')
      j hj2 (by omega) (by simp [List.mem_range]; omega) (by simp) hlen
  · rw [runSkippableSubtask_score]
    refine subtaskUpdate_of_failed allSubtasks allScores task _ i ?_ ?_
    · rw [runSkippableSubtask_cases, skipLoop_length, List.length_map]
      exact hi
    · rw [hfailed]; rfl

/-- Witness for C2 (amended) on a concrete two-case subtask whose first
case rejects. -/
theorem failed_case_sets_skip_witness :
    (0 < taskTwoCases.cases.length ∧
     initialSkip [taskTwoCases] [] taskTwoCases = false ∧
     oracleFirstFails 0 = Except.error "Task runner error") ∧
    ((((runSkippableSubtask [taskTwoCases] [] taskTwoCases oracleFirstFails).cases.getD 0
        default).status = TaskStatus.Failed) ∧
     (((runSkippableSubtask [taskTwoCases] [] taskTwoCases oracleFirstFails).cases.getD 0
        default).errorMessage = some "Task runner error") ∧
     (∀ j, 0 < j → j < taskTwoCases.cases.length →
       ((((runSkippableSubtask [taskTwoCases] [] taskTwoCases oracleFirstFails).cases.getD j
           default).status = TaskStatus.Skipped) ∧
        j ∉ (runSkippableSubtask [taskTwoCases] [] taskTwoCases oracleFirstFails).invoked)) ∧
     (runSkippableSubtask [taskTwoCases] [] taskTwoCases oracleFirstFails).score = .nan) :=
  ⟨⟨by decide, rfl, rfl⟩,
    failed_case_sets_skip [taskTwoCases] [] taskTwoCases oracleFirstFails 0
      "Task runner error" (by decide) rfl
      (fun k hk => absurd hk (Nat.not_lt_zero k)) rfl⟩

/-- C2 (counterexample): with the first case rejecting, the second case
of the concrete two-case subtask is `Skipped` and never evaluated — the
claim that cases after a `Failed` case are still evaluated normally is
false on the code. -/
theorem failed_case_counterexample :
    (((runSkippableSubtask [taskTwoCases] [] taskTwoCases oracleFirstFails).cases.getD 0
        default).status = TaskStatus.Failed) ∧
    (((runSkippableSubtask [taskTwoCases] [] taskTwoCases oracleFirstFails).cases.getD 1
        default).status = TaskStatus.Skipped) ∧
    (runSkippableSubtask [taskTwoCases] [] taskTwoCases oracleFirstFails).invoked = [0] := by
  refine ⟨?_, ?_, ?_⟩ <;> decide

theorem getD_set_cases (states : List CaseState) (i j : Nat) (c : CaseState) :
    (states.set i c).getD j default
      = if i = j ∧ i < states.length then c else states.getD j default := by
  by_cases hij : i = j
  · subst hij
    by_cases hlt : i < states.length
    · rw [if_pos ⟨rfl, hlt⟩, List.getD_eq_getElem?_getD, List.getElem?_set_self hlt]
      rfl
    · rw [if_neg (fun h => hlt h.2), List.getD_eq_getElem?_getD,
        List.getD_eq_getElem?_getD, List.getElem?_set, if_pos rfl, if_neg hlt,
        List.getElem?_eq_none_iff.mpr (Nat.le_of_not_lt hlt)]
  · rw [if_neg (fun h => hij h.1), List.getD_eq_getElem?_getD,
      List.getD_eq_getElem?_getD, List.getElem?_set_ne hij]

theorem skipLoop_skipped_result_invariant (u : List CaseState → JsNum)
    (o : Nat → Except String TestcaseDetails) (t : SubtaskScoringType) (is : List Nat)
    (states : List CaseState) (b : Bool) (invoked : List Nat) (trace : List JsNum)
    (hnd : is.Nodup)
    (hmem : ∀ j ∈ is, states.getD j default = initialCaseState t)
    (hskip : ∀ j, (states.getD j default).status = TaskStatus.Skipped →
      (states.getD j default).result = some (initialCaseDetails t)) :
    ∀ j, ((skipLoop u o is states b invoked trace).1.getD j default).status
        = TaskStatus.Skipped →
      ((skipLoop u o is states b invoked trace).1.getD j default).result
        = some (initialCaseDetails t) := by
  induction is generalizing states b invoked trace with
  | nil => exact hskip
  | cons i rest ih =>
    have hinit : states.getD i default = initialCaseState t :=
      hmem i (List.mem_cons_self i rest)
    have hndr : rest.Nodup := (List.nodup_cons.mp hnd).2
    have hir : ∀ j ∈ rest, j ≠ i :=
      fun j hj hji => (List.nodup_cons.mp hnd).1 (hji ▸ hj)
    have hnext : ∀ (c : CaseState),
        (c.status = TaskStatus.Skipped → c.result = some (initialCaseDetails t)) →
        ∀ j, ((states.set i c).getD j default).status = TaskStatus.Skipped →
          ((states.set i c).getD j default).result = some (initialCaseDetails t) := by
      intro c hc j hs
      rw [getD_set_cases] at hs ⊢
      by_cases hcase : i = j ∧ i < states.length
      · rw [if_pos hcase] at hs ⊢
        exact hc hs
      · rw [if_neg hcase] at hs ⊢
        exact hskip j hs
    have hmemrest : ∀ (c : CaseState), ∀ j ∈ rest,
        (states.set i c).getD j default = initialCaseState t := by
      intro c j hj
      rw [getD_set_cases, if_neg (fun h => hir j hj h.1.symm)]
      exact hmem j (List.mem_cons_of_mem i hj)
    cases b with
    | true =>
      rw [skipLoop, if_pos rfl]
      refine ih _ _ _ _ hndr (hmemrest _) (hnext _ ?_)
      intro _
      rw [hinit]
      rfl
    | false =>
      rw [skipLoop, if_neg (by simp)]
      cases ho : o i with
      | ok d =>
        dsimp only
        refine ih _ _ _ _ hndr (hmemrest _) (hnext _ ?_)
        intro hcon
        exact absurd hcon (by simp [markDone])
      | error e =>
        dsimp only
        refine ih _ _ _ _ hndr (hmemrest _) (hnext _ ?_)
        intro hcon
        exact absurd hcon (by simp [markFailed])

/-- C10: in a skippable subtask (`Minimum` or `Multiple`), every case
whose final status is `Skipped` still carries its initial placeholder
result whose `scoringRate` is `1`, so the unclamped subtask score treats
each skipped case as contributing ratio `1`. -/
theorem skipped_case_keeps_placeholder (allSubtasks : List SubtaskJudge)
    (allScores : List JsNum) (task : SubtaskJudge)
    (oracle : Nat → Except String TestcaseDetails)
    (ht : task.type ≠ SubtaskScoringType.Summation) (j : Nat) :
    (((runSkippableSubtask allSubtasks allScores task oracle).cases.getD j default).status
        = TaskStatus.Skipped →
      (((runSkippableSubtask allSubtasks allScores task oracle).cases.getD j default).result
          = some (initialCaseDetails task.type) ∧
        caseRate ((runSkippableSubtask allSubtasks allScores task oracle).cases.getD j
          default) = some (JsNum.num 1))) := by
  intro hs
  have hres : ((runSkippableSubtask allSubtasks allScores task oracle).cases.getD j
      default).result = some (initialCaseDetails task.type) := by
    rw [runSkippableSubtask_cases] at hs ⊢
    refine skipLoop_skipped_result_invariant _ oracle task.type _ _ _ [] []
      (List.nodup_range _) ?_ ?_ j hs
    · intro k hk
      have hklen : k < task.cases.length := List.mem_range.mp hk
      rw [List.getD_eq_getElem?_getD, List.getElem?_map, List.getElem?_eq_getElem hklen]
      rfl
    · intro k hk
      by_cases hklen : k < task.cases.length
      · rw [List.getD_eq_getElem?_getD, List.getElem?_map,
          List.getElem?_eq_getElem hklen] at hk
        exact absurd hk (by simp [initialCaseState])
      · rw [List.getD_eq_getElem?_getD,
          List.getElem?_eq_none (by rw [List.length_map]; omega)] at hk
        exact absurd hk (by decide)
  refine ⟨hres, ?_⟩
  rw [caseRate, hres]
  simp only [initialCaseDetails, if_pos ht]

/-- Witness for C10 on a concrete run: case 2 of the three-case subtask
is skipped and keeps the placeholder. -/
theorem skipped_case_keeps_placeholder_witness :
    (taskThreeCases.type ≠ SubtaskScoringType.Summation) ∧
    (((runSkippableSubtask [taskThreeCases] [] taskThreeCases oracleRateZeroAt1).cases.getD 2
        default).status = TaskStatus.Skipped →
      (((runSkippableSubtask [taskThreeCases] [] taskThreeCases
          oracleRateZeroAt1).cases.getD 2 default).result
          = some (initialCaseDetails taskThreeCases.type) ∧
        caseRate ((runSkippableSubtask [taskThreeCases] [] taskThreeCases
          oracleRateZeroAt1).cases.getD 2 default) = some (JsNum.num 1))) :=
  ⟨by decide,
    skipped_case_keeps_placeholder [taskThreeCases] [] taskThreeCases oracleRateZeroAt1
      (by decide) 2⟩

theorem lodashMin_foldl_num (l : List (Option JsNum)) (a : ℚ)
    (h : ∀ x ∈ l, ∃ r : ℚ, x = some (.num r)) :
    ∃ m : ℚ, l.foldl lodashMinStep (some (.num a)) = some (.num m) ∧
      (m = a ∨ ∃ x ∈ l, x = some (.num m)) := by
  induction l generalizing a with
  | nil => exact ⟨a, rfl, Or.inl rfl⟩
  | cons x rest ih =>
    obtain ⟨r, hr⟩ := h x (List.mem_cons_self x rest)
    subst hr
    have hstep : lodashMinStep (some (.num a)) (some (.num r))
        = if jsLt (.num r) (.num a) then some (.num r) else some (.num a) := rfl
    rw [List.foldl_cons, hstep]
    by_cases hlt : jsLt (.num r) (.num a) = true
    · rw [if_pos hlt]
      obtain ⟨m, hm, hmem⟩ := ih r (fun x hx => h x (List.mem_cons_of_mem _ hx))
      refine ⟨m, hm, ?_⟩
      cases hmem with
      | inl hh => exact Or.inr ⟨some (.num r), List.mem_cons_self _ _, by rw [hh]⟩
      | inr hh =>
        obtain ⟨y, hy, hye⟩ := hh
        exact Or.inr ⟨y, List.mem_cons_of_mem _ hy, hye⟩
    · rw [if_neg hlt]
      obtain ⟨m, hm, hmem⟩ := ih a (fun x hx => h x (List.mem_cons_of_mem _ hx))
      refine ⟨m, hm, ?_⟩
      cases hmem with
      | inl hh => exact Or.inl hh
      | inr hh =>
        obtain ⟨y, hy, hye⟩ := hh
        exact Or.inr ⟨y, List.mem_cons_of_mem _ hy, hye⟩

theorem lodashMin_num (l : List (Option JsNum)) (hne : l ≠ [])
    (h : ∀ x ∈ l, ∃ r : ℚ, x = some (.num r)) :
    ∃ m : ℚ, lodashMin l = some (.num m) ∧ ∃ x ∈ l, x = some (.num m) := by
  cases l with
  | nil => exact absurd rfl hne
  | cons x rest =>
    obtain ⟨r, hr⟩ := h x (List.mem_cons_self x rest)
    subst hr
    have hstep : lodashMinStep none (some (.num r)) = some (.num r) := by
      simp [lodashMinStep]
    rw [lodashMin, List.foldl_cons, hstep]
    obtain ⟨m, hm, hmem⟩ := lodashMin_foldl_num rest r
      (fun x hx => h x (List.mem_cons_of_mem _ hx))
    refine ⟨m, hm, ?_⟩
    cases hmem with
    | inl hh => exact ⟨some (.num r), List.mem_cons_self _ _, by rw [hh]⟩
    | inr hh =>
      obtain ⟨y, hy, hye⟩ := hh
      exact ⟨y, List.mem_cons_of_mem _ hy, hye⟩

theorem foldl_product_bounds (l : List (Option JsNum)) (a : ℚ) (ha0 : 0 ≤ a) (ha1 : a ≤ 1)
    (h : ∀ x ∈ l, ∃ r : ℚ, x = some (.num r) ∧ 0 ≤ r ∧ r ≤ 1) :
    ∃ p : ℚ, l.foldl (fun res cur => jsMul res (cur.getD (.num 0))) (.num a) = .num p ∧
      0 ≤ p ∧ p ≤ 1 := by
  induction l generalizing a with
  | nil => exact ⟨a, rfl, ha0, ha1⟩
  | cons x rest ih =>
    obtain ⟨r, hr, hr0, hr1⟩ := h x (List.mem_cons_self x rest)
    subst hr
    rw [List.foldl_cons]
    have hstep : jsMul (.num a) ((some (JsNum.num r)).getD (.num 0)) = .num (a * r) := rfl
    rw [hstep]
    exact ih (a * r) (mul_nonneg ha0 hr0) (mul_le_one₀ ha1 hr0 hr1)
      (fun x hx => h x (List.mem_cons_of_mem _ hx))

theorem foldl_sum_bounds (l : List (Option JsNum)) (a : ℚ)
    (h : ∀ x ∈ l, ∃ r : ℚ, x = some (.num r) ∧ 0 ≤ r ∧ r ≤ 1) :
    ∃ t : ℚ, l.foldl (fun acc v => jsAdd acc (v.getD (.num 0))) (.num a) = .num (a + t) ∧
      0 ≤ t ∧ t ≤ l.length := by
  induction l generalizing a with
  | nil => exact ⟨0, by rw [add_zero]; rfl, le_refl 0, by simp⟩
  | cons x rest ih =>
    obtain ⟨r, hr, hr0, hr1⟩ := h x (List.mem_cons_self x rest)
    subst hr
    rw [List.foldl_cons]
    have hstep : jsAdd (.num a) ((some (JsNum.num r)).getD (.num 0)) = .num (a + r) := rfl
    rw [hstep]
    obtain ⟨t, ht, ht0, htl⟩ := ih (a + r) (fun x hx => h x (List.mem_cons_of_mem _ hx))
    refine ⟨r + t, by rw [ht, add_assoc], add_nonneg hr0 ht0, ?_⟩
    have hlen : (((some (JsNum.num r) :: rest : List (Option JsNum)).length : ℚ))
        = (rest.length : ℚ) + 1 := by
      push_cast [List.length_cons]
      ring
    rw [hlen]
    linarith

theorem calculateSubtaskScore_bounds (scoring : SubtaskScoringType)
    (scores : List (Option JsNum)) (hne : scores ≠ [])
    (h : ∀ x ∈ scores, ∃ r : ℚ, x = some (.num r) ∧ 0 ≤ r ∧ r ≤ 1) :
    ∃ v : ℚ, calculateSubtaskScore scoring scores = some (.num v) ∧ 0 ≤ v ∧ v ≤ 1 := by
  cases scoring with
  | Minimum =>
    obtain ⟨m, hm, x, hx, hxe⟩ := lodashMin_num scores hne
      (fun x hx => (h x hx).imp (fun r hr => hr.1))
    obtain ⟨r, hre, hr0, hr1⟩ := h x hx
    rw [hre] at hxe
    have : r = m := by
      have hh := Option.some.inj hxe
      injection hh
    exact ⟨m, hm, this ▸ hr0, this ▸ hr1⟩
  | Multiple =>
    obtain ⟨p, hp, hp0, hp1⟩ := foldl_product_bounds scores 1 (by norm_num) (le_refl 1) h
    exact ⟨p, by rw [calculateSubtaskScore, hp], hp0, hp1⟩
  | Summation =>
    obtain ⟨t, ht, ht0, htl⟩ := foldl_sum_bounds scores 0 h
    have hlen : 0 < scores.length := List.length_pos.mpr hne
    have hlenq : (0 : ℚ) < (scores.length : ℚ) := by exact_mod_cast hlen
    have hdiv : jsDiv (.num (0 + t)) (.num (scores.length : ℚ)) = .num (t / scores.length) := by
      rw [jsDiv, if_neg (ne_of_gt hlenq), zero_add]
    refine ⟨t / scores.length, ?_, div_nonneg ht0 (le_of_lt hlenq), ?_⟩
    · rw [calculateSubtaskScore, lodashSum, ht, hdiv]
    · rw [div_le_one hlenq]
      exact htl

/-- C5 (amended): provided every subtask has at least one case, every
delivered scoring rate lies in [0, 1] and the subtask's full score is a
non-negative number, the computed subtask score is `NaN` exactly when
some case of the subtask is `Failed`, and otherwise it is a number in
`[0, subtask.score]`. -/
theorem subtask_score_range_nan_iff (task : SubtaskJudge) (cases : List CaseState) (s : ℚ)
    (hscore : task.score = .num s) (hs : 0 ≤ s) (hne : cases ≠ [])
    (hr : ∀ c ∈ cases, ∃ r : ℚ, caseRate c = some (.num r) ∧ 0 ≤ r ∧ r ≤ 1) :
    (updateSubtaskScore task cases = .nan ↔ ∃ c ∈ cases, c.status = TaskStatus.Failed) ∧
    (∀ q : ℚ, updateSubtaskScore task cases = .num q → 0 ≤ q ∧ q ≤ s) ∧
    (updateSubtaskScore task cases = .nan ∨
      ∃ q : ℚ, updateSubtaskScore task cases = .num q) := by
  by_cases hf : cases.any (fun c => decide (c.status = TaskStatus.Failed)) = true
  · have hupd : updateSubtaskScore task cases = .nan := by
      rw [updateSubtaskScore, if_pos hf]
    have hex : ∃ c ∈ cases, c.status = TaskStatus.Failed := by
      obtain ⟨c, hc, hcd⟩ := List.any_eq_true.mp hf
      exact ⟨c, hc, of_decide_eq_true hcd⟩
    refine ⟨⟨fun _ => hex, fun _ => hupd⟩, ?_, Or.inl hupd⟩
    intro q hq
    rw [hupd] at hq
    exact absurd hq (by simp)
  · have hmapne : cases.map caseRate ≠ [] := by
      intro hcon
      exact hne (List.map_eq_nil_iff.mp hcon)
    have hmaph : ∀ x ∈ cases.map caseRate, ∃ r : ℚ, x = some (.num r) ∧ 0 ≤ r ∧ r ≤ 1 := by
      intro x hx
      obtain ⟨c, hc, hce⟩ := List.mem_map.mp hx
      obtain ⟨r, hre, hr0, hr1⟩ := hr c hc
      exact ⟨r, by rw [← hce, hre], hr0, hr1⟩
    obtain ⟨v, hv, hv0, hv1⟩ := calculateSubtaskScore_bounds task.type _ hmapne hmaph
    have hupd : updateSubtaskScore task cases = .num (v * s) := by
      rw [updateSubtaskScore, if_neg hf, hv]
      dsimp only
      rw [hscore, jsMul_num]
    have hnof : ¬ ∃ c ∈ cases, c.status = TaskStatus.Failed := by
      intro ⟨c, hc, hcd⟩
      exact hf (List.any_eq_true.mpr ⟨c, hc, decide_eq_true hcd⟩)
    refine ⟨⟨fun hcon => absurd (hupd ▸ hcon) (by simp), fun hcon => absurd hcon hnof⟩,
      ?_, Or.inr ⟨v * s, hupd⟩⟩
    intro q hq
    rw [hupd] at hq
    have hqe : v * s = q := by injection hq
    subst hqe
    exact ⟨mul_nonneg hv0 hs, mul_le_of_le_one_left hs hv1⟩

/-- C5 (counterexample): a `Summation` subtask with an empty case list
gets score `NaN` (`0 / 0`) although none of its cases is `Failed`, so
"`NaN` iff at least one Failed case" does not hold without assuming every
subtask has at least one case. -/
theorem score_nan_without_failed_counterexample :
    updateSubtaskScore taskNoCases [] = .nan ∧
    ¬ ∃ c ∈ ([] : List CaseState), c.status = TaskStatus.Failed := by
  constructor
  · rfl
  · simp

/-- Witness for C5 (amended) on a one-case subtask with full rate. -/
theorem subtask_score_range_nan_iff_witness :
    (taskOneCase.score = .num 1 ∧ (0 : ℚ) ≤ 1 ∧ [doneCaseState] ≠ [] ∧
     ∀ c ∈ [doneCaseState], ∃ r : ℚ, caseRate c = some (.num r) ∧ 0 ≤ r ∧ r ≤ 1) ∧
    ((updateSubtaskScore taskOneCase [doneCaseState] = .nan ↔
        ∃ c ∈ [doneCaseState], c.status = TaskStatus.Failed) ∧
     (∀ q : ℚ, updateSubtaskScore taskOneCase [doneCaseState] = .num q → 0 ≤ q ∧ q ≤ 1) ∧
     (updateSubtaskScore taskOneCase [doneCaseState] = .nan ∨
      ∃ q : ℚ, updateSubtaskScore taskOneCase [doneCaseState] = .num q)) :=
  ⟨⟨rfl, by decide, by decide,
    fun c hc => ⟨1, by
      rw [List.mem_singleton] at hc
      subst hc
      exact ⟨rfl, by decide, by decide⟩⟩⟩,
   subtask_score_range_nan_iff taskOneCase [doneCaseState] 1 rfl (by decide) (by decide)
     (fun c hc => ⟨1, by
       rw [List.mem_singleton] at hc
       subst hc
       exact ⟨rfl, by decide, by decide⟩⟩)⟩

theorem jsDiv_num_ne (a b : ℚ) (hb : b ≠ 0) : jsDiv (.num a) (.num b) = .num (a / b) := by
  rw [jsDiv, if_neg hb]

theorem lodashMin_foldl_min (l : List ℚ) (m : ℚ) :
    List.foldl lodashMinStep (some (.num m)) (l.map (fun q => some (.num q)))
      = some (.num (List.foldl min m l)) := by
  induction l generalizing m with
  | nil => rfl
  | cons q rest ih =>
    rw [List.map_cons, List.foldl_cons, List.foldl_cons]
    have hstep : lodashMinStep (some (.num m)) (some (.num q)) = some (.num (min m q)) := by
      simp only [lodashMinStep, jsLt]
      by_cases h : q < m
      · rw [if_pos (decide_eq_true h), min_eq_right (le_of_lt h)]
      · rw [if_neg (by simp [h]), min_eq_left (le_of_not_lt h)]
    rw [hstep]
    exact ih (min m q)

theorem foldr_min_min (a b : ℚ) (l : List ℚ) :
    List.foldr min (min a b) l = min a (List.foldr min b l) := by
  induction l with
  | nil => rfl
  | cons c rest ih => rw [List.foldr_cons, List.foldr_cons, ih, min_left_comm]

theorem lodashMin_with_one (l : List ℚ) :
    lodashMin (l.map (fun q => some (.num q)) ++ [some (.num 1)])
      = some (.num (List.foldr min 1 l)) := by
  cases l with
  | nil => rfl
  | cons q rest =>
    rw [List.map_cons, lodashMin, List.cons_append, List.foldl_cons]
    have hstep : lodashMinStep none (some (.num q)) = some (.num q) := by
      simp [lodashMinStep]
    rw [hstep]
    have hmap : rest.map (fun q => some (JsNum.num q)) ++ [some (.num 1)]
        = (rest ++ [1]).map (fun q => some (.num q)) := by
      rw [List.map_append]
      rfl
    rw [hmap, lodashMin_foldl_min, List.foldl_eq_foldr, List.foldr_append]
    have h1 : List.foldr min q [(1 : ℚ)] = min 1 q := rfl
    rw [h1, min_comm 1 q, foldr_min_min, List.foldr_cons]

theorem foldr_min_le (l : List ℚ) (b : ℚ) (q : ℚ) (hq : q ∈ l) : l.foldr min b ≤ q := by
  induction l with
  | nil => exact absurd hq (List.not_mem_nil q)
  | cons c rest ih =>
    rw [List.foldr_cons]
    cases List.mem_cons.mp hq with
    | inl h =>
      subst h
      exact min_le_left q _
    | inr h => exact le_trans (min_le_right c _) (ih h)

theorem minScoreOf_eq (allSubtasks : List SubtaskJudge) (allScores : List JsNum)
    (task : SubtaskJudge) (rfun ffun : Int → ℚ) (s : ℚ) (hscore : task.score = .num s)
    (hdep : ∀ dp ∈ task.dependencies, allScores.getD dp.toNat .nan = .num (rfun dp) ∧
      (allSubtasks.getD dp.toNat default).score = .num (ffun dp) ∧ 0 < ffun dp) :
    minScoreOf allSubtasks allScores task
      = .num ((task.dependencies.map (fun dp => rfun dp / ffun dp)).foldr min 1 * s) := by
  rw [minScoreOf]
  have hmap : task.dependencies.map
        (fun index => some (depScoreRatio allSubtasks allScores index))
      = (task.dependencies.map (fun dp => rfun dp / ffun dp)).map
          (fun q => some (.num q)) := by
    rw [List.map_map]
    apply List.map_congr_left
    intro dp hdp
    obtain ⟨h1, h2, h3⟩ := hdep dp hdp
    simp only [Function.comp_apply]
    rw [depScoreRatio, h1, h2, jsDiv_num_ne _ _ (ne_of_gt h3)]
  rw [hmap, lodashMin_with_one, Option.getD_some, hscore, jsMul_num]

theorem jsLt_jsMin_right_of_le (x : JsNum) (q m : ℚ) (h : m ≤ q) :
    jsLt (.num q) (jsMin x (.num m)) = false := by
  rw [jsMin]
  by_cases hx : x = .nan
  · rw [if_pos (Or.inl hx)]
    rfl
  · rw [if_neg (by simp [hx])]
    by_cases hlt : jsLt x (.num m) = true
    · rw [if_pos hlt]
      cases x with
      | num a =>
        have ha : a < m := of_decide_eq_true hlt
        simp only [jsLt]
        exact decide_eq_false (not_lt.mpr (le_of_lt (lt_of_lt_of_le ha h)))
      | nan => exact absurd rfl hx
      | inf => exact Bool.noConfusion hlt
      | ninf => rfl
    · rw [if_neg hlt]
      simp only [jsLt]
      exact decide_eq_false (not_lt.mpr h)

theorem skipLoop_trace_elems (u : List CaseState → JsNum)
    (o : Nat → Except String TestcaseDetails) (is : List Nat) (states : List CaseState)
    (b : Bool) (invoked : List Nat) (trace : List JsNum) :
    ∀ t ∈ (skipLoop u o is states b invoked trace).2.2.2,
      t ∈ trace ∨ ∃ st, t = u st := by
  induction is generalizing states b invoked trace with
  | nil => exact fun t ht => Or.inl ht
  | cons i rest ih =>
    intro t ht
    cases b with
    | true =>
      rw [skipLoop, if_pos rfl] at ht
      exact ih _ _ _ _ t ht
    | false =>
      rw [skipLoop, if_neg (by simp)] at ht
      have hstep : ∀ st' : List CaseState, ∀ sk',
          t ∈ (skipLoop u o rest st' sk' (invoked ++ [i]) (trace ++ [u st'])).2.2.2 →
          t ∈ trace ∨ ∃ st, t = u st := by
        intro st' sk' hmem
        cases ih st' sk' (invoked ++ [i]) (trace ++ [u st']) t hmem with
        | inl h =>
          cases List.mem_append.mp h with
          | inl h2 => exact Or.inl h2
          | inr h2 => exact Or.inr ⟨st', by simpa using h2⟩
        | inr h => exact Or.inr h
      cases ho : o i with
      | ok d =>
        rw [ho] at ht
        dsimp only at ht
        exact hstep _ _ ht
      | error e =>
        rw [ho] at ht
        dsimp only at ht
        exact hstep _ _ ht

theorem runSkippableSubtask_trace (allSubtasks : List SubtaskJudge) (allScores : List JsNum)
    (task : SubtaskJudge) (oracle : Nat → Except String TestcaseDetails) :
    (runSkippableSubtask allSubtasks allScores task oracle).scoreTrace
      = (skipLoop (subtaskUpdate allSubtasks allScores task) oracle
          (List.range task.cases.length) (task.cases.map (fun _ => initialCaseState task.type))
          (initialSkip allSubtasks allScores task) [] []).2.2.2
        ++ [(runSkippableSubtask allSubtasks allScores task oracle).score] := rfl

/-- C3: for a `Minimum` subtask with dependencies the runner computes,
before any case runs, `minScore = min(1, min over deps of
results[i].score / subtasks[i].score) * task.score`; if `minScore ≤ 0`
the whole subtask is skipped upfront with no evaluation and no runner
call, otherwise every score the update routine produces is clamped to
`minScore`, so the final score never exceeds any dependency's
`(dep.score / dep.fullScore) * task.score`. -/
theorem min_propagation (allSubtasks : List SubtaskJudge) (allScores : List JsNum)
    (task : SubtaskJudge) (oracle : Nat → Except String TestcaseDetails)
    (rfun ffun : Int → ℚ) (s : ℚ)
    (htype : task.type = SubtaskScoringType.Minimum)
    (_hdeps : task.dependencies ≠ [])
    (hscore : task.score = .num s) (hs : 0 ≤ s)
    (hdep : ∀ dp ∈ task.dependencies, allScores.getD dp.toNat .nan = .num (rfun dp) ∧
      (allSubtasks.getD dp.toNat default).score = .num (ffun dp) ∧ 0 < ffun dp) :
    (minScoreOf allSubtasks allScores task
      = .num ((task.dependencies.map (fun dp => rfun dp / ffun dp)).foldr min 1 * s)) ∧
    ((task.dependencies.map (fun dp => rfun dp / ffun dp)).foldr min 1 * s ≤ 0 →
      (∀ j, j < task.cases.length →
        (((runSkippableSubtask allSubtasks allScores task oracle).cases.getD j
          default).status = TaskStatus.Skipped)) ∧
      (runSkippableSubtask allSubtasks allScores task oracle).invoked = []) ∧
    ((runSkippableSubtask allSubtasks allScores task oracle).score
      = jsMin (updateSubtaskScore task
          (runSkippableSubtask allSubtasks allScores task oracle).cases)
          (minScoreOf allSubtasks allScores task) ∧
     (∀ t ∈ (runSkippableSubtask allSubtasks allScores task oracle).scoreTrace,
       jsLt (minScoreOf allSubtasks allScores task) t = false)) ∧
    (∀ dp ∈ task.dependencies,
      jsLt (jsMul (depScoreRatio allSubtasks allScores dp) task.score)
        (runSkippableSubtask allSubtasks allScores task oracle).score = false) := by
  have hmin := minScoreOf_eq allSubtasks allScores task rfun ffun s hscore hdep
  have hupdate : subtaskUpdate allSubtasks allScores task = fun states =>
      jsMin (updateSubtaskScore task states) (minScoreOf allSubtasks allScores task) := by
    funext states
    rw [subtaskUpdate, if_pos htype]
  refine ⟨hmin, ?_, ⟨?_, ?_⟩, ?_⟩
  · intro hneg
    have hskip0 : initialSkip allSubtasks allScores task = true := by
      rw [initialSkip, if_pos htype, hmin]
      have : jsLt (.num 0) (.num
          ((task.dependencies.map (fun dp => rfun dp / ffun dp)).foldr min 1 * s)) = false := by
        simp only [jsLt]
        exact decide_eq_false (not_lt.mpr hneg)
      rw [this]
      rfl
    constructor
    · intro j hj
      rw [runSkippableSubtask_cases, hskip0]
      refine skipLoop_true_skipped_status _ oracle _ _ [] [] j (List.mem_range.mpr hj) ?_
      rw [List.length_map]
      exact hj
    · rw [runSkippableSubtask_invoked, hskip0]
      exact (skipLoop_true_frozen _ oracle _ _ [] []).2.1
  · rw [runSkippableSubtask_score, hupdate]
  · intro t ht
    rw [runSkippableSubtask_trace] at ht
    have hform : ∃ st, t = subtaskUpdate allSubtasks allScores task st := by
      cases List.mem_append.mp ht with
      | inl h =>
        cases skipLoop_trace_elems _ oracle _ _ _ _ _ t h with
        | inl h2 => exact absurd h2 (List.not_mem_nil t)
        | inr h2 => exact h2
      | inr h =>
        refine ⟨(runSkippableSubtask allSubtasks allScores task oracle).cases, ?_⟩
        rw [show t = (runSkippableSubtask allSubtasks allScores task oracle).score from by
          simpa using h, runSkippableSubtask_score]
    obtain ⟨st, hst⟩ := hform
    rw [hst, hupdate, hmin]
    exact jsLt_jsMin_right_of_le _ _ _ (le_refl _)
  · intro dp hdp
    obtain ⟨h1, h2, h3⟩ := hdep dp hdp
    rw [depScoreRatio, h1, h2, jsDiv_num_ne _ _ (ne_of_gt h3), hscore, jsMul_num,
      runSkippableSubtask_score, hupdate]
    dsimp only
    rw [hmin]
    refine jsLt_jsMin_right_of_le _ _ _ ?_
    refine mul_le_mul_of_nonneg_right ?_ hs
    refine foldr_min_le _ _ _ ?_
    exact List.mem_map.mpr ⟨dp, hdp, rfl⟩

/-- Witness for C3 on a two-subtask scenario with a single dependency of
full ratio. -/
theorem min_propagation_witness :
    (mainTaskW.type = SubtaskScoringType.Minimum ∧ mainTaskW.dependencies ≠ [] ∧
     mainTaskW.score = .num 1 ∧ (0 : ℚ) ≤ 1 ∧
     ∀ dp ∈ mainTaskW.dependencies,
       [JsNum.num 1, JsNum.nan].getD dp.toNat .nan = .num 1 ∧
       ([depTaskW, mainTaskW].getD dp.toNat default).score = .num 1 ∧ (0 : ℚ) < 1) ∧
    (minScoreOf [depTaskW, mainTaskW] [JsNum.num 1, JsNum.nan] mainTaskW
      = .num ((mainTaskW.dependencies.map
          (fun dp => (fun _ : Int => (1 : ℚ)) dp / (fun _ : Int => (1 : ℚ)) dp)).foldr min 1
        * 1)) :=
  ⟨⟨rfl, by decide, rfl, by decide,
    fun dp hdp => by
      rw [show mainTaskW.dependencies = [0] from rfl, List.mem_singleton] at hdp
      subst hdp
      exact ⟨rfl, rfl, by decide⟩⟩,
   (min_propagation [depTaskW, mainTaskW] [JsNum.num 1, JsNum.nan] mainTaskW oracleAllOk
     (fun _ => 1) (fun _ => 1) 1 rfl (by decide) rfl (by decide)
     (fun dp hdp => by
       rw [show mainTaskW.dependencies = [0] from rfl, List.mem_singleton] at hdp
       subst hdp
       exact ⟨rfl, rfl, by decide⟩)).1⟩

theorem findDiagnosticCaseInSubtask_spec (cfg : DiagnosticsConfig)
    (p : StandardJudgeParameter) (si : Nat) (subtasks : List SubtaskJudge)
    (results : List SubtaskState) :
    (match findDiagnosticCaseInSubtask (diagMaxTimeUsage cfg p) (diagMaxMemoryUsage cfg p)
        (subtasks.getD si default).cases (results.getD si default).cases with
     | some ci => some (si, ci)
     | none => none)
    = Option.map (fun ci => (si, ci))
        ((List.range (subtasks.getD si default).cases.length).find?
          ((fun pr : Nat × Nat =>
            match ((results.getD pr.1 default).cases.getD pr.2 default).result with
            | some d => specDiagnosticsEligible cfg p d
            | none => false) ∘ (fun ci => (si, ci)))) := by
  rw [findDiagnosticCaseInSubtask]
  have hpred : (fun index =>
      match ((results.getD si default).cases.getD index default).result with
      | some d => diagnosticsEligible (diagMaxTimeUsage cfg p) (diagMaxMemoryUsage cfg p) d
      | none => false)
      = ((fun pr : Nat × Nat =>
          match ((results.getD pr.1 default).cases.getD pr.2 default).result with
          | some d => specDiagnosticsEligible cfg p d
          | none => false) ∘ (fun ci => (si, ci))) := by
    funext index
    rfl
  rw [hpred]
  cases (List.range (subtasks.getD si default).cases.length).find?
      ((fun pr : Nat × Nat =>
        match ((results.getD pr.1 default).cases.getD pr.2 default).result with
        | some d => specDiagnosticsEligible cfg p d
        | none => false) ∘ (fun ci => (si, ci))) with
  | none => rfl
  | some ci => rfl

/-- C7: the diagnostics driver scans subtasks in declared order and,
within each, cases in declared order, selecting exactly the first case
whose recorded details have type `WrongAnswer` or `RuntimeError`, time at
most `min(maxTimeRatio * timeLimit, maxTime)` ms and memory at most
`min(maxMemoryRatio * memoryLimit * 1024, maxMemory)` KiB (the MiB
parameter limit times 1024); when no case qualifies, neither the
instrumented compile nor the rerun happens and the results are
untouched. -/
theorem diagnostics_scan_first_eligible (cfg : DiagnosticsConfig)
    (p : StandardJudgeParameter) (subtasks : List SubtaskJudge)
    (results : List SubtaskState) :
    (findDiagnosticCase subtasks results (diagMaxTimeUsage cfg p) (diagMaxMemoryUsage cfg p)
      = specFirstEligible cfg p subtasks results) ∧
    (∀ (cO : Except String CompilationResult)
       (jO : TestcaseJudge → Except String TestcaseDetails),
      specFirstEligible cfg p subtasks results = none →
      runDiagnostics cfg p cO jO subtasks results
        = { results := results, compileAttempted := false, rerunAttempted := false }) := by
  have heq : findDiagnosticCase subtasks results (diagMaxTimeUsage cfg p)
      (diagMaxMemoryUsage cfg p) = specFirstEligible cfg p subtasks results := by
    rw [specFirstEligible, List.find?_flatMap, findDiagnosticCase]
    congr 1
    funext si
    rw [List.find?_map]
    exact findDiagnosticCaseInSubtask_spec cfg p si subtasks results
  refine ⟨heq, ?_⟩
  intro cO jO hnone
  simp only [runDiagnostics, heq.trans hnone]

/-- Witness for C7 on a configuration whose only recorded verdict is
`Accepted`: nothing is eligible and the rerun does not happen. -/
theorem diagnostics_scan_first_eligible_witness :
    (specFirstEligible diagCfg diagParams diagSubtasks diagResultsAccepted = none) ∧
    (findDiagnosticCase diagSubtasks diagResultsAccepted (diagMaxTimeUsage diagCfg diagParams)
        (diagMaxMemoryUsage diagCfg diagParams)
      = specFirstEligible diagCfg diagParams diagSubtasks diagResultsAccepted) ∧
    (runDiagnostics diagCfg diagParams
        (Except.ok { status := TaskStatus.Done, message := none })
        (fun _ => Except.error "unused") diagSubtasks diagResultsAccepted
      = { results := diagResultsAccepted, compileAttempted := false,
          rerunAttempted := false }) :=
  ⟨rfl,
   (diagnostics_scan_first_eligible diagCfg diagParams diagSubtasks diagResultsAccepted).1,
   (diagnostics_scan_first_eligible diagCfg diagParams diagSubtasks diagResultsAccepted).2
     _ _ rfl⟩

theorem getD_set_if {α : Type} (l : List α) (i j : Nat) (x d : α) :
    (l.set i x).getD j d = if i = j ∧ i < l.length then x else l.getD j d := by
  by_cases hij : i = j
  · subst hij
    by_cases hlt : i < l.length
    · rw [if_pos ⟨rfl, hlt⟩, List.getD_eq_getElem?_getD, List.getElem?_set_self hlt]
      rfl
    · rw [if_neg (fun h => hlt h.2), List.getD_eq_getElem?_getD,
        List.getD_eq_getElem?_getD, List.getElem?_set, if_pos rfl, if_neg hlt,
        List.getElem?_eq_none_iff.mpr (Nat.le_of_not_lt hlt)]
  · rw [if_neg (fun h => hij h.1), List.getD_eq_getElem?_getD,
      List.getD_eq_getElem?_getD, List.getElem?_set_ne hij]

theorem mem_take_mono {α : Type} (l : List α) (m n : Nat) (a : α) (hmn : m ≤ n)
    (ha : a ∈ l.take m) : a ∈ l.take n := by
  obtain ⟨i, hi, hie⟩ := List.mem_take_iff_getElem.mp ha
  exact List.mem_take_iff_getElem.mpr ⟨i, by omega, hie⟩

theorem indexOf_lt_of_mem_take (l : List Nat) (n : Nat) (a : Nat) (ha : a ∈ l.take n) :
    l.indexOf a < n := by
  induction l generalizing n with
  | nil => rw [List.take_nil] at ha; exact absurd ha (List.not_mem_nil a)
  | cons b rest ih =>
    cases n with
    | zero => exact absurd ha (by simp)
    | succ k =>
      rw [List.take_succ_cons] at ha
      by_cases hab : b = a
      · subst hab
        rw [List.indexOf_cons_self]
        omega
      · have ha2 : a ∈ rest.take k := by
          cases List.mem_cons.mp ha with
          | inl h => exact absurd h.symm hab
          | inr h => exact h
        rw [List.indexOf_cons_ne _ (by simpa using hab)]
        have := ih k ha2
        omega

theorem nodup_bounded_length (l : List Nat) (n : Nat) (hnd : l.Nodup)
    (hb : ∀ x ∈ l, x < n) : l.length ≤ n := by
  have hsub : l.toFinset ⊆ Finset.range n := by
    intro x hx
    rw [List.mem_toFinset] at hx
    rw [Finset.mem_range]
    exact hb x hx
  have := Finset.card_le_card hsub
  rw [List.toFinset_card_of_nodup hnd, Finset.card_range] at this
  exact this

theorem unprocessedCount_nil (subtasks : List SubtaskJudge) (v : Nat) :
    unprocessedCount subtasks [] v = (depsOf subtasks v).length := by
  rw [unprocessedCount]
  have : (depsOf subtasks v).filter
      (fun d => decide (d ∉ ([] : List Nat).map (fun p : Nat => (p : Int))))
      = depsOf subtasks v := by
    apply List.filter_eq_self.mpr
    intro a _
    simp
  rw [this]

theorem length_filter_ne (m : List Int) (a : Int) :
    (m.filter (fun d => decide (d ≠ a))).length = m.length - m.count a := by
  have hsplit := List.length_eq_countP_add_countP (fun d => d == a) (l := m)
  have h1 : List.countP (fun d => d == a) m = m.count a := (List.count_eq_countP a m).symm
  have h2 : List.countP (fun d => decide ¬(d == a) = true) m
      = (m.filter (fun d => decide (d ≠ a))).length := by
    rw [← List.countP_eq_length_filter]
    apply List.countP_congr
    intro d _
    constructor
    · intro h
      simp only [decide_eq_true_eq] at h ⊢
      intro hcon
      exact h (by simp [hcon])
    · intro h
      simp only [decide_eq_true_eq] at h ⊢
      intro hcon
      exact h (by simpa using hcon)
  omega

theorem count_le_unprocessed (subtasks : List SubtaskJudge) (processed : List Nat)
    (v idx : Nat) (hidx : idx ∉ processed) :
    (depsOf subtasks v).count ((idx : Nat) : Int)
      ≤ unprocessedCount subtasks processed v := by
  rw [unprocessedCount, ← List.count_filter (p := fun d =>
    decide (d ∉ processed.map (fun p : Nat => (p : Int)))) (a := ((idx : Nat) : Int))
    (l := depsOf subtasks v) (by
      simp only [decide_eq_true_eq, List.mem_map]
      rintro ⟨p, hp, hpe⟩
      have : p = idx := by omega
      exact hidx (this ▸ hp))]
  exact List.count_le_length _ _

theorem unprocessedCount_append (subtasks : List SubtaskJudge) (processed : List Nat)
    (v idx : Nat) (hidx : idx ∉ processed) :
    unprocessedCount subtasks (processed ++ [idx]) v
      = unprocessedCount subtasks processed v
        - (depsOf subtasks v).count ((idx : Nat) : Int) := by
  rw [unprocessedCount, unprocessedCount]
  have hmap : (processed ++ [idx]).map (fun p : Nat => (p : Int))
      = processed.map (fun p : Nat => (p : Int)) ++ [((idx : Nat) : Int)] := by
    rw [List.map_append]
    rfl
  have hpred : (fun d => decide (d ∉ (processed ++ [idx]).map (fun p : Nat => (p : Int))))
      = (fun d => decide (d ≠ ((idx : Nat) : Int))
          && decide (d ∉ processed.map (fun p : Nat => (p : Int)))) := by
    funext d
    rw [hmap]
    by_cases h1 : d ∈ processed.map (fun p : Nat => (p : Int)) <;>
      by_cases h2 : d = ((idx : Nat) : Int) <;>
      simp [h1, h2]
  rw [hpred, ← List.filter_filter]
  rw [length_filter_ne]
  congr 1
  exact (List.count_filter (by
    show decide (((idx : Nat) : Int) ∉ processed.map (fun p : Nat => (p : Int))) = true
    refine decide_eq_true ?_
    intro hmem
    obtain ⟨p, hp, hpe⟩ := List.mem_map.mp hmem
    have : p = idx := by omega
    exact hidx (this ▸ hp)))

theorem unprocessedCount_zero (subtasks : List SubtaskJudge) (processed : List Nat)
    (v : Nat) (h : unprocessedCount subtasks processed v = 0) :
    ∀ d ∈ depsOf subtasks v, d ∈ processed.map (fun p : Nat => (p : Int)) := by
  intro d hd
  by_contra hcon
  have hmem : d ∈ (depsOf subtasks v).filter
      (fun d => decide (d ∉ processed.map (fun p : Nat => (p : Int)))) :=
    List.mem_filter.mpr ⟨hd, by simpa using hcon⟩
  rw [unprocessedCount] at h
  rw [List.length_eq_zero] at h
  rw [h] at hmem
  exact absurd hmem (List.not_mem_nil d)

theorem addEdges_spec (subtasks : List SubtaskJudge) (i : Nat) (l : List Int)
    (edges : List (List Nat)) (hlen : edges.length = subtasks.length)
    (hvalid : ∀ d ∈ l, 0 ≤ d ∧ d.toNat < subtasks.length ∧
      (subtasks.getD d.toNat default).type = SubtaskScoringType.Minimum) :
    ∃ edges2, addEdges i subtasks.length subtasks l edges = .ok edges2 ∧
      edges2.length = subtasks.length ∧
      ∀ dN v, (edges2.getD dN []).count v
        = (edges.getD dN []).count v + if v = i then l.count ((dN : Nat) : Int) else 0 := by
  induction l generalizing edges with
  | nil =>
    refine ⟨edges, rfl, hlen, ?_⟩
    intro dN v
    by_cases hv : v = i <;> simp [hv]
  | cons d rest ih =>
    obtain ⟨hd0, hdlt, hdmin⟩ := hvalid d (List.mem_cons_self d rest)
    rw [addEdges, if_neg (by omega), if_neg (fun hcon => hcon hdmin)]
    obtain ⟨edges2, he, hl2, hc⟩ := ih (edges.set d.toNat (edges.getD d.toNat [] ++ [i]))
      (by rw [List.length_set, hlen])
      (fun x hx => hvalid x (List.mem_cons_of_mem d hx))
    refine ⟨edges2, he, hl2, ?_⟩
    intro dN v
    rw [hc dN v]
    have hstep : ((edges.set d.toNat (edges.getD d.toNat [] ++ [i])).getD dN []).count v
        = (edges.getD dN []).count v + if dN = d.toNat ∧ v = i then 1 else 0 := by
      rw [getD_set_if]
      by_cases hdn : d.toNat = dN
      · subst hdn
        rw [if_pos ⟨rfl, by omega⟩, List.count_append]
        by_cases hv : v = i
        · subst hv
          rw [if_pos ⟨rfl, rfl⟩]
          simp [List.count_singleton]
        · rw [if_neg (fun h => hv h.2)]
          have hbeq : (i == v) = false := by
            rw [beq_eq_false_iff_ne]
            exact fun h => hv h.symm
          simp [List.count_singleton, hbeq]
      · rw [if_neg (fun h => hdn h.1), if_neg (fun h => hdn h.1.symm)]
        omega
    rw [hstep]
    by_cases hv : v = i
    · subst hv
      rw [if_pos rfl, if_pos rfl, List.count_cons]
      by_cases hdd : d = ((dN : Nat) : Int)
      · have h2 : dN = d.toNat := by omega
        rw [if_pos ⟨h2, rfl⟩, if_pos (by simp [hdd])]
        omega
      · have h2 : ¬ dN = d.toNat := by omega
        rw [if_neg (fun h => h2 h.1), if_neg (by simp [hdd])]
        omega
    · rw [if_neg (fun h => hv h.2), if_neg hv, if_neg hv]

theorem validateLoop_spec (subtasks : List SubtaskJudge) (is : List Nat) (queue : List Nat)
    (edges : List (List Nat)) (degs : List Int)
    (hlen : edges.length = subtasks.length) (hnd : is.Nodup)
    (hval : ∀ i ∈ is, i < subtasks.length ∧
      (depsOf subtasks i ≠ [] → (subtasks.getD i default).type = SubtaskScoringType.Minimum) ∧
      ∀ d ∈ depsOf subtasks i, 0 ≤ d ∧ d.toNat < subtasks.length ∧
        (subtasks.getD d.toNat default).type = SubtaskScoringType.Minimum) :
    ∃ edges2, validateLoop subtasks subtasks.length is queue edges degs
        = .ok (queue ++ is.filter (fun i => (depsOf subtasks i).isEmpty), edges2,
               degs ++ is.map (fun i => ((depsOf subtasks i).length : Int))) ∧
      edges2.length = subtasks.length ∧
      ∀ dN v, (edges2.getD dN []).count v = (edges.getD dN []).count v
        + if v ∈ is then (depsOf subtasks v).count ((dN : Nat) : Int) else 0 := by
  induction is generalizing queue edges degs with
  | nil =>
    refine ⟨edges, by simp [validateLoop], hlen, ?_⟩
    intro dN v
    simp
  | cons i rest ih =>
    obtain ⟨hilt, howner, hdval⟩ := hval i (List.mem_cons_self i rest)
    have hir : i ∉ rest := (List.nodup_cons.mp hnd).1
    have hndr : rest.Nodup := (List.nodup_cons.mp hnd).2
    have hnocond : ¬ (0 < (subtasks.getD i default).dependencies.length ∧
        (subtasks.getD i default).type ≠ SubtaskScoringType.Minimum) := by
      intro ⟨h1, h2⟩
      refine h2 (howner ?_)
      rw [depsOf]
      intro hcon
      rw [hcon] at h1
      exact absurd h1 (by simp)
    rw [validateLoop, if_neg hnocond]
    obtain ⟨edges1, he1, hl1, hc1⟩ := addEdges_spec subtasks i
      (subtasks.getD i default).dependencies edges hlen hdval
    rw [he1]
    dsimp only
    obtain ⟨edges2, he2, hl2, hc2⟩ := ih _ edges1
      (degs ++ [((subtasks.getD i default).dependencies.length : Int)]) hl1 hndr
      (fun j hj => hval j (List.mem_cons_of_mem i hj))
    refine ⟨edges2, ?_, hl2, ?_⟩
    · rw [he2]
      have hq : (if 0 < (subtasks.getD i default).dependencies.length then queue
            else queue ++ [i]) ++ rest.filter (fun j => (depsOf subtasks j).isEmpty)
          = queue ++ (i :: rest).filter (fun j => (depsOf subtasks j).isEmpty) := by
        rw [List.filter_cons]
        by_cases hemp : (depsOf subtasks i).isEmpty
        · have h0 : ¬ 0 < (subtasks.getD i default).dependencies.length := by
            rw [List.isEmpty_iff] at hemp
            rw [show (subtasks.getD i default).dependencies = depsOf subtasks i from rfl,
              hemp]
            simp
          rw [if_neg h0, if_pos hemp, List.append_assoc]
          rfl
        · have h0 : 0 < (subtasks.getD i default).dependencies.length := by
            rw [List.isEmpty_iff] at hemp
            have : depsOf subtasks i ≠ [] := hemp
            rw [show (subtasks.getD i default).dependencies = depsOf subtasks i from rfl]
            exact List.length_pos.mpr this
          rw [if_pos h0, if_neg (by simpa using hemp)]
      have hd : (degs ++ [((subtasks.getD i default).dependencies.length : Int)])
            ++ rest.map (fun j => ((depsOf subtasks j).length : Int))
          = degs ++ (i :: rest).map (fun j => ((depsOf subtasks j).length : Int)) := by
        rw [List.map_cons, List.append_assoc]
        rfl
      rw [hq, hd]
    · intro dN v
      rw [hc2 dN v, hc1 dN v]
      by_cases hv : v = i
      · subst hv
        rw [if_pos rfl, if_pos (List.mem_cons_self v rest), if_neg hir]
        rw [show (subtasks.getD v default).dependencies = depsOf subtasks v from rfl]
        omega
      · rw [if_neg hv]
        by_cases hvr : v ∈ rest
        · rw [if_pos hvr, if_pos (List.mem_cons_of_mem i hvr)]
          omega
        · rw [if_neg hvr, if_neg (by
            intro hmem
            cases List.mem_cons.mp hmem with
            | inl h => exact hv h
            | inr h => exact hvr h)]

theorem count_cons_eq (t v : Nat) (rest : List Nat) :
    List.count v (t :: rest) = List.count v rest + if t = v then 1 else 0 := by
  rw [List.count_cons]
  by_cases h : t = v <;> simp [h]

theorem processEdges_queue_append (l : List Nat) (queue : List Nat) (deg : List Int) :
    ∃ p, (processEdges l queue deg).1 = queue ++ p := by
  induction l generalizing queue deg with
  | nil => exact ⟨[], (List.append_nil queue).symm⟩
  | cons t rest ih =>
    rw [processEdges]
    by_cases hz : (deg.set t (deg.getD t 0 - 1)).getD t 0 = 0
    · rw [if_pos hz]
      obtain ⟨p, hp⟩ := ih (queue ++ [t]) (deg.set t (deg.getD t 0 - 1))
      exact ⟨t :: p, by rw [hp, List.append_assoc]; rfl⟩
    · rw [if_neg hz]
      exact ih queue (deg.set t (deg.getD t 0 - 1))

theorem processEdges_spec (l : List Nat) (queue : List Nat) (deg : List Int)
    (hl : ∀ x ∈ l, x < deg.length) :
    (processEdges l queue deg).2.length = deg.length ∧
    (∀ v, (processEdges l queue deg).2.getD v 0 = deg.getD v 0 - l.count v) ∧
    ∃ pushes, (processEdges l queue deg).1 = queue ++ pushes ∧ pushes.Nodup ∧
      ∀ v, v ∈ pushes ↔ v ∈ l ∧ 1 ≤ deg.getD v 0 ∧ deg.getD v 0 ≤ (l.count v : Int) := by
  induction l generalizing queue deg with
  | nil =>
    refine ⟨rfl, fun v => by rw [processEdges]; simp, [], (List.append_nil queue).symm,
      List.nodup_nil, fun v => ?_⟩
    simp
  | cons t rest ih =>
    have htlen : t < deg.length := hl t (List.mem_cons_self t rest)
    rw [processEdges]
    have hlen1 : (deg.set t (deg.getD t 0 - 1)).length = deg.length := List.length_set deg t _
    have hdeg1v : ∀ v, (deg.set t (deg.getD t 0 - 1)).getD v 0
        = if t = v then deg.getD t 0 - 1 else deg.getD v 0 := by
      intro v
      rw [getD_set_if]
      by_cases hv : t = v
      · rw [if_pos ⟨hv, htlen⟩, if_pos hv]
      · rw [if_neg (fun h => hv h.1), if_neg hv]
    have hl1 : ∀ x ∈ rest, x < (deg.set t (deg.getD t 0 - 1)).length := by
      intro x hx
      rw [hlen1]
      exact hl x (List.mem_cons_of_mem t hx)
    have hdegstep : ∀ v, (processEdges rest
          (if (deg.set t (deg.getD t 0 - 1)).getD t 0 = 0 then queue ++ [t] else queue)
          (deg.set t (deg.getD t 0 - 1))).2.getD v 0
        = deg.getD v 0 - (t :: rest).count v := by
      intro v
      obtain ⟨_, ihd, _⟩ := ih _ (deg.set t (deg.getD t 0 - 1)) hl1
      rw [ihd v, hdeg1v v, count_cons_eq]
      by_cases hv : t = v
      · subst hv
        rw [if_pos rfl, if_pos rfl]
        push_cast
        omega
      · rw [if_neg hv, if_neg hv]
        push_cast
        omega
    by_cases hz : (deg.set t (deg.getD t 0 - 1)).getD t 0 = 0
    · obtain ⟨ihl, ihd, pushes, ihq, ihnd, ihmem⟩ :=
        ih (queue ++ [t]) (deg.set t (deg.getD t 0 - 1)) hl1
      have hdegt : deg.getD t 0 = 1 := by
        have := hdeg1v t
        rw [if_pos rfl] at this
        omega
      refine ⟨?_, ?_, t :: pushes, ?_, ?_, ?_⟩
      · rw [if_pos hz]
        exact ihl.trans hlen1
      · intro v
        have := hdegstep v
        rw [if_pos hz] at this ⊢
        exact this
      · rw [if_pos hz, ihq, List.append_assoc]
        rfl
      · refine List.nodup_cons.mpr ⟨?_, ihnd⟩
        intro hcon
        have := (ihmem t).mp hcon
        rw [hdeg1v t, if_pos rfl, hdegt] at this
        omega
      · intro v
        constructor
        · intro hmem
          cases List.mem_cons.mp hmem with
          | inl hv =>
            subst hv
            refine ⟨List.mem_cons_self v rest, by omega, ?_⟩
            rw [count_cons_eq, if_pos rfl, hdegt]
            push_cast
            omega
          | inr hv =>
            obtain ⟨hm, h1, h2⟩ := (ihmem v).mp hv
            rw [hdeg1v v] at h1 h2
            by_cases hvt : t = v
            · subst hvt
              refine ⟨List.mem_cons_self t rest, by omega, ?_⟩
              rw [count_cons_eq, if_pos rfl, hdegt]
              push_cast
              omega
            · rw [if_neg hvt] at h1 h2
              refine ⟨List.mem_cons_of_mem t hm, h1, ?_⟩
              rw [count_cons_eq, if_neg hvt]
              push_cast at h2 ⊢
              omega
        · intro ⟨hm, h1, h2⟩
          by_cases hvt : t = v
          · subst hvt
            exact List.mem_cons_self t pushes
          · have hmr : v ∈ rest := by
              cases List.mem_cons.mp hm with
              | inl h => exact absurd h.symm hvt
              | inr h => exact h
            refine List.mem_cons_of_mem t ((ihmem v).mpr ⟨hmr, ?_, ?_⟩)
            · rw [hdeg1v v, if_neg hvt]
              exact h1
            · rw [hdeg1v v, if_neg hvt]
              rw [count_cons_eq, if_neg hvt] at h2
              push_cast at h2 ⊢
              omega
    · obtain ⟨ihl, ihd, pushes, ihq, ihnd, ihmem⟩ :=
        ih queue (deg.set t (deg.getD t 0 - 1)) hl1
      have hdegt : ¬ deg.getD t 0 = 1 := by
        have := hdeg1v t
        rw [if_pos rfl] at this
        omega
      refine ⟨?_, ?_, pushes, ?_, ihnd, ?_⟩
      · rw [if_neg hz]
        exact ihl.trans hlen1
      · intro v
        have := hdegstep v
        rw [if_neg hz] at this ⊢
        exact this
      · rw [if_neg hz, ihq]
      · intro v
        rw [ihmem v]
        by_cases hvt : t = v
        · subst hvt
          constructor
          · intro ⟨hm, h1, h2⟩
            rw [hdeg1v t, if_pos rfl] at h1 h2
            refine ⟨List.mem_cons_self t rest, by omega, ?_⟩
            rw [count_cons_eq, if_pos rfl]
            push_cast at h2 ⊢
            omega
          · intro ⟨hm, h1, h2⟩
            rw [count_cons_eq, if_pos rfl] at h2
            have hmr : t ∈ rest := by
              by_contra hcon
              have hc0 : List.count t rest = 0 := List.count_eq_zero.mpr hcon
              rw [hc0] at h2
              push_cast at h2
              omega
            refine ⟨hmr, ?_, ?_⟩
            · rw [hdeg1v t, if_pos rfl]
              omega
            · rw [hdeg1v t, if_pos rfl]
              push_cast at h2 ⊢
              omega
        · constructor
          · intro ⟨hm, h1, h2⟩
            rw [hdeg1v v, if_neg hvt] at h1 h2
            refine ⟨List.mem_cons_of_mem t hm, h1, ?_⟩
            rw [count_cons_eq, if_neg hvt]
            push_cast at h2 ⊢
            omega
          · intro ⟨hm, h1, h2⟩
            have hmr : v ∈ rest := by
              cases List.mem_cons.mp hm with
              | inl h => exact absurd h.symm hvt
              | inr h => exact h
            refine ⟨hmr, ?_, ?_⟩
            · rw [hdeg1v v, if_neg hvt]
              exact h1
            · rw [hdeg1v v, if_neg hvt]
              rw [count_cons_eq, if_neg hvt] at h2
              push_cast at h2 ⊢
              omega

theorem kahnInv_step (subtasks : List SubtaskJudge) (edges : List (List Nat))
    (queue : List Nat) (head : Nat) (deg : List Int)
    (hes : edgesSpec subtasks edges)
    (hinv : kahnInv subtasks queue head deg)
    (hlt : head < queue.length) :
    kahnInv subtasks
      (processEdges (edges.getD (queue.getD head 0) []) queue deg).1 (head + 1)
      (processEdges (edges.getD (queue.getD head 0) []) queue deg).2 ∧
    ∃ p, (processEdges (edges.getD (queue.getD head 0) []) queue deg).1 = queue ++ p := by
  obtain ⟨hhead, hnd, hbnd, hdlen, hdval, hzq, hqn, hpos⟩ := hinv
  obtain ⟨helen, hecnt⟩ := hes
  set u := queue.getD head 0 with hu
  have huget : u = queue.get ⟨head, hlt⟩ := by
    rw [hu, List.getD_eq_getElem?_getD, List.getElem?_eq_getElem hlt]
    rfl
  have humem : u ∈ queue := huget ▸ List.get_mem queue head hlt
  have hultN : u < subtasks.length := hbnd u humem
  set l := edges.getD u [] with hldef
  have hlcnt : ∀ v, l.count v = if v < subtasks.length
      then (depsOf subtasks v).count ((u : Nat) : Int) else 0 := fun v => hecnt u hultN v
  have hlbnd : ∀ x ∈ l, x < subtasks.length := by
    intro x hx
    by_contra hcon
    have h1 := hlcnt x
    rw [if_neg hcon] at h1
    have h2 := List.count_pos_iff.mpr hx
    omega
  have hlbnd2 : ∀ x ∈ l, x < deg.length := fun x hx => hdlen ▸ hlbnd x hx
  obtain ⟨hplen, hpdeg, pushes, hpq, hpnd, hpmem⟩ := processEdges_spec l queue deg hlbnd2
  have htake : queue.take (head + 1) = queue.take head ++ [u] := by
    rw [List.take_succ, List.getElem?_eq_getElem hlt]
    have hup : queue[head] = u := by rw [huget]; rfl
    rw [hup]
    rfl
  have hunotin : u ∉ queue.take head := by
    intro hcon
    obtain ⟨i, hi, hie⟩ := List.mem_take_iff_getElem.mp hcon
    have hilen : i < queue.length := by
      simp only [lt_min_iff] at hi
      exact hi.2
    have hih : i = head := by
      have hqe : queue.get ⟨i, hilen⟩ = queue.get ⟨head, hlt⟩ := by
        show queue[i] = queue[head]
        rw [hie, huget]
        rfl
      exact (List.Nodup.getElem_inj_iff hnd).mp hqe
    simp only [lt_min_iff] at hi
    omega
  have hdval' : ∀ v, v < subtasks.length →
      (processEdges l queue deg).2.getD v 0
        = (unprocessedCount subtasks (queue.take (head + 1)) v : Int) := by
    intro v hv
    rw [hpdeg v, hdval v hv, htake, unprocessedCount_append subtasks _ v u hunotin]
    have hle := count_le_unprocessed subtasks (queue.take head) v u hunotin
    have hcv := hlcnt v
    rw [if_pos hv] at hcv
    rw [hcv]
    omega
  have hdisj : ∀ v ∈ queue, v ∉ pushes := by
    intro v hvq hvp
    obtain ⟨_, h1, _⟩ := (hpmem v).mp hvp
    have h2 := hqn v hvq
    omega
  have hdeps : ∀ w ∈ pushes, ∀ d ∈ depsOf subtasks w,
      d.toNat ∈ queue.take head ++ [u] := by
    intro w hw d hd
    obtain ⟨hwl, h1, h2⟩ := (hpmem w).mp hw
    have hwN : w < subtasks.length := hlbnd w hwl
    have hcw := hlcnt w
    rw [if_pos hwN] at hcw
    have hdw := hdval w hwN
    have hle := count_le_unprocessed subtasks (queue.take head) w u hunotin
    have heq : (depsOf subtasks w).count ((u : Nat) : Int)
        = unprocessedCount subtasks (queue.take head) w := by
      rw [hcw] at h2
      rw [hdw] at h1 h2
      omega
    by_cases hmemmap : d ∈ (queue.take head).map (fun p : Nat => (p : Int))
    · obtain ⟨p, hp, hpe⟩ := List.mem_map.mp hmemmap
      have hdp : d.toNat = p := by omega
      exact List.mem_append_left _ (hdp ▸ hp)
    · have hdF : d ∈ (depsOf subtasks w).filter
          (fun d => decide (d ∉ (queue.take head).map (fun p : Nat => (p : Int)))) :=
        List.mem_filter.mpr ⟨hd, by simpa using hmemmap⟩
      have hupred : decide (((u : Nat) : Int)
          ∉ (queue.take head).map (fun p : Nat => (p : Int))) = true := by
        refine decide_eq_true ?_
        intro hmem
        obtain ⟨p, hp, hpe⟩ := List.mem_map.mp hmem
        have hpu : p = u := by omega
        exact hunotin (hpu ▸ hp)
      have hcntF : ((depsOf subtasks w).filter
          (fun d => decide (d ∉ (queue.take head).map (fun p : Nat => (p : Int))))).count
            ((u : Nat) : Int)
          = (depsOf subtasks w).count ((u : Nat) : Int) := List.count_filter hupred
      have hall : ∀ b ∈ (depsOf subtasks w).filter
          (fun d => decide (d ∉ (queue.take head).map (fun p : Nat => (p : Int)))),
          ((u : Nat) : Int) = b := by
        apply List.count_eq_length.mp
        rw [hcntF, heq]
        rfl
      have hdu : ((u : Nat) : Int) = d := hall d hdF
      have hdu2 : d.toNat = u := by omega
      exact List.mem_append_right _ (hdu2 ▸ List.mem_singleton.mpr rfl)
  constructor
  · rw [hpq]
    refine ⟨?_, ?_, ?_, ?_, ?_, ?_, ?_, ?_⟩
    · rw [List.length_append]
      omega
    · rw [List.nodup_append]
      exact ⟨hnd, hpnd, fun a ha hb => hdisj a ha hb⟩
    · intro x hx
      cases List.mem_append.mp hx with
      | inl h => exact hbnd x h
      | inr h => exact hlbnd x ((hpmem x).mp h).1
    · rw [hplen, hdlen]
    · intro v hv
      rw [List.take_append_of_le_length (by omega)]
      exact hdval' v hv
    · intro v hv h0
      rw [hpdeg v] at h0
      by_cases hvl : v ∈ l
      · have hc1 := List.count_pos_iff.mpr hvl
        have hd0 : 0 ≤ deg.getD v 0 := by
          rw [hdval v hv]
          exact Int.natCast_nonneg _
        exact List.mem_append_right _ ((hpmem v).mpr ⟨hvl, by omega, by omega⟩)
      · have hc0 : l.count v = 0 := List.count_eq_zero.mpr hvl
        rw [hc0] at h0
        exact List.mem_append_left _ (hzq v hv (by omega))
    · intro v hv
      rw [hpdeg v]
      cases List.mem_append.mp hv with
      | inl h =>
        have := hqn v h
        omega
      | inr h =>
        have := ((hpmem v).mp h).2.2
        omega
    · intro j hj d hd
      by_cases hjq : j < queue.length
      · have hget : (queue ++ pushes).get ⟨j, hj⟩ = queue.get ⟨j, hjq⟩ :=
          List.getElem_append_left hjq
        rw [hget] at hd
        have hold := hpos j hjq d hd
        rw [List.take_append_of_le_length (by omega)]
        exact mem_take_mono queue _ _ _ (by omega) hold
      · have hjlen : j - queue.length < pushes.length := by
          have := hj
          rw [List.length_append] at this
          omega
        have hget : (queue ++ pushes).get ⟨j, hj⟩
            = pushes.get ⟨j - queue.length, hjlen⟩ :=
          List.getElem_append_right (by omega)
        have hw : (queue ++ pushes).get ⟨j, hj⟩ ∈ pushes := by
          rw [hget]
          exact List.get_mem pushes _ hjlen
        have hdk := hdeps _ hw d hd
        have hmin : min j (head + 1) = head + 1 := by omega
        rw [hmin, List.take_append_of_le_length (by omega), htake]
        exact hdk
  · exact ⟨pushes, hpq⟩

theorem map_nil_getD (subtasks : List SubtaskJudge) (dN : Nat) :
    (subtasks.map (fun _ => ([] : List Nat))).getD dN [] = [] := by
  rw [List.getD_eq_getElem?_getD, List.getElem?_map]
  cases subtasks[dN]? <;> rfl

theorem range_map_getD (n : Nat) (f : Nat → Int) (v : Nat) (hv : v < n) :
    ((List.range n).map f).getD v 0 = f v := by
  rw [List.getD_eq_getElem?_getD, List.getElem?_map, List.getElem?_range hv]
  rfl

theorem kahnLoop_run (subtasks : List SubtaskJudge) (edges : List (List Nat))
    (fuel : Nat) (queue : List Nat) (head : Nat) (deg : List Int)
    (hes : edgesSpec subtasks edges)
    (hinv : kahnInv subtasks queue head deg)
    (hfuel : subtasks.length + 1 ≤ fuel + head) :
    ∃ p, (kahnLoop edges fuel queue head deg).1 = queue ++ p ∧
      kahnInv subtasks (kahnLoop edges fuel queue head deg).1
        (kahnLoop edges fuel queue head deg).1.length
        (kahnLoop edges fuel queue head deg).2 := by
  induction fuel generalizing queue head deg with
  | zero =>
    exfalso
    obtain ⟨hhead, hnd, hbnd, _⟩ := hinv
    have := nodup_bounded_length queue subtasks.length hnd hbnd
    omega
  | succ fuel ih =>
    rw [kahnLoop]
    by_cases hlt : head < queue.length
    · rw [if_pos hlt]
      obtain ⟨hinv', p1, hp1⟩ := kahnInv_step subtasks edges queue head deg hes hinv hlt
      obtain ⟨p2, hp2, hfin⟩ := ih _ _ _ hinv' (by omega)
      refine ⟨p1 ++ p2, ?_, hfin⟩
      rw [hp2, hp1, List.append_assoc]
    · rw [if_neg hlt]
      have heq : head = queue.length := by
        have := hinv.1
        omega
      exact ⟨[], (List.append_nil queue).symm, heq ▸ hinv⟩

theorem kahnInv_init (subtasks : List SubtaskJudge) :
    kahnInv subtasks (seedsOf subtasks) 0
      ((List.range subtasks.length).map
        (fun i => ((depsOf subtasks i).length : Int))) := by
  have hsnd : (seedsOf subtasks).Nodup :=
    List.Nodup.filter _ (List.nodup_range subtasks.length)
  have hsb : ∀ x ∈ seedsOf subtasks, x < subtasks.length := by
    intro x hx
    have := (List.mem_filter.mp hx).1
    exact List.mem_range.mp this
  have hsmem : ∀ x ∈ seedsOf subtasks, (depsOf subtasks x).isEmpty := by
    intro x hx
    exact (List.mem_filter.mp hx).2
  refine ⟨Nat.zero_le _, hsnd, hsb, by rw [List.length_map, List.length_range], ?_, ?_, ?_, ?_⟩
  · intro v hv
    rw [range_map_getD _ _ v hv, List.take_zero, unprocessedCount_nil]
  · intro v hv h0
    rw [range_map_getD _ _ v hv] at h0
    have hlen0 : (depsOf subtasks v).length = 0 := by omega
    refine List.mem_filter.mpr ⟨List.mem_range.mpr hv, ?_⟩
    rw [List.isEmpty_iff, ← List.length_eq_zero]
    exact hlen0
  · intro v hv
    have hvN := hsb v hv
    rw [range_map_getD _ _ v hvN]
    have hemp := hsmem v hv
    rw [List.isEmpty_iff] at hemp
    rw [hemp]
    simp
  · intro j hj d hd
    have hmem : (seedsOf subtasks).get ⟨j, hj⟩ ∈ seedsOf subtasks :=
      List.get_mem _ j hj
    have hemp := hsmem _ hmem
    rw [List.isEmpty_iff] at hemp
    rw [hemp] at hd
    exact absurd hd (List.not_mem_nil d)

/-- C4: `getSubtaskOrder` implements Kahn's topological sort.  For every
dependency configuration that validates (in-range dependency indices
pointing at `Minimum` subtasks) and whose graph is a DAG, it returns a
permutation of `[0, N)` in which every dependency of a subtask occurs
strictly before that subtask, and which begins with the dependency-free
subtasks in ascending index order (the seeding of the queue); for every
cyclic input it returns the fatal configuration error
"Misconfigured subtask dependencies: loop detected". -/
theorem getSubtaskOrder_kahn (subtasks : List SubtaskJudge)
    (hdep : ∀ i, i < subtasks.length → ∀ d ∈ depsOf subtasks i,
      0 ≤ d ∧ d.toNat < subtasks.length ∧
      (subtasks.getD d.toNat default).type = SubtaskScoringType.Minimum)
    (hmin : ∀ i, i < subtasks.length → depsOf subtasks i ≠ [] →
      (subtasks.getD i default).type = SubtaskScoringType.Minimum) :
    (isDAGRanked subtasks →
      ∃ order, getSubtaskOrder subtasks = .ok order ∧
        order.Perm (List.range subtasks.length) ∧
        (∀ j, (hj : j < order.length) →
          ∀ d ∈ depsOf subtasks (order.get ⟨j, hj⟩), d.toNat ∈ order.take j) ∧
        order.take (seedsOf subtasks).length = seedsOf subtasks) ∧
    (¬ isDAGRanked subtasks →
      getSubtaskOrder subtasks = .error (subtaskDepsError "loop detected")) := by
  have hval : ∀ i ∈ List.range subtasks.length, i < subtasks.length ∧
      (depsOf subtasks i ≠ [] →
        (subtasks.getD i default).type = SubtaskScoringType.Minimum) ∧
      ∀ d ∈ depsOf subtasks i, 0 ≤ d ∧ d.toNat < subtasks.length ∧
        (subtasks.getD d.toNat default).type = SubtaskScoringType.Minimum := by
    intro i hi
    have hiN := List.mem_range.mp hi
    exact ⟨hiN, hmin i hiN, hdep i hiN⟩
  obtain ⟨edges2, hvl, hel, hec⟩ := validateLoop_spec subtasks
    (List.range subtasks.length) [] (subtasks.map (fun _ => [])) []
    (List.length_map subtasks _) (List.nodup_range subtasks.length) hval
  simp only [List.nil_append] at hvl
  rw [show (List.range subtasks.length).filter (fun i => (depsOf subtasks i).isEmpty)
    = seedsOf subtasks from rfl] at hvl
  have hes : edgesSpec subtasks edges2 := by
    refine ⟨hel, ?_⟩
    intro dN hdN v
    rw [hec dN v, map_nil_getD, List.count_nil]
    by_cases hv : v < subtasks.length
    · rw [if_pos (List.mem_range.mpr hv), if_pos hv]
      omega
    · rw [if_neg (fun h => hv (List.mem_range.mp h)), if_neg hv]
  obtain ⟨p, hQ, hinvF⟩ := kahnLoop_run subtasks edges2 (subtasks.length + 1)
    (seedsOf subtasks) 0
    ((List.range subtasks.length).map (fun i => ((depsOf subtasks i).length : Int)))
    hes (kahnInv_init subtasks) (by omega)
  set Q := (kahnLoop edges2 (subtasks.length + 1) (seedsOf subtasks) 0
    ((List.range subtasks.length).map
      (fun i => ((depsOf subtasks i).length : Int)))).1 with hQdef
  set degF := (kahnLoop edges2 (subtasks.length + 1) (seedsOf subtasks) 0
    ((List.range subtasks.length).map
      (fun i => ((depsOf subtasks i).length : Int)))).2 with hdegFdef
  obtain ⟨hhF, hndF, hbF, hdlF, hdvF, hzqF, hqnF, hposF⟩ := hinvF
  have hunfold : getSubtaskOrder subtasks
      = if Q.length < subtasks.length
        then .error (subtaskDepsError "loop detected") else .ok Q := by
    rw [getSubtaskOrder, hvl]
  have hQle : Q.length ≤ subtasks.length := nodup_bounded_length Q _ hndF hbF
  have hQsub : Q.toFinset ⊆ Finset.range subtasks.length := fun x hx =>
    Finset.mem_range.mpr (hbF x (List.mem_toFinset.mp hx))
  have hQcard : Q.toFinset.card = Q.length := List.toFinset_card_of_nodup hndF
  have hQfin : ¬ Q.length < subtasks.length → Q.toFinset = Finset.range subtasks.length := by
    intro hge
    refine Finset.eq_of_subset_of_card_le hQsub ?_
    rw [hQcard, Finset.card_range]
    omega
  have hrangeFin : (List.range subtasks.length).toFinset = Finset.range subtasks.length := by
    ext x
    simp [List.mem_range]
  have hnotlt : isDAGRanked subtasks → ¬ Q.length < subtasks.length := by
    rintro ⟨rank, hrank⟩ hlen
    have hSne : (Finset.range subtasks.length \ Q.toFinset).Nonempty := by
      refine Finset.card_pos.mp ?_
      rw [Finset.card_sdiff hQsub, Finset.card_range, hQcard]
      omega
    obtain ⟨v, hvS, hvmin⟩ := Finset.exists_min_image _ rank hSne
    have hvN : v < subtasks.length := Finset.mem_range.mp (Finset.mem_sdiff.mp hvS).1
    have hvQ : v ∉ Q := fun h => (Finset.mem_sdiff.mp hvS).2 (List.mem_toFinset.mpr h)
    have hdnz : degF.getD v 0 ≠ 0 := fun h0 => hvQ (hzqF v hvN h0)
    have hdv := hdvF v hvN
    rw [List.take_length] at hdv
    have hunz : unprocessedCount subtasks Q v ≠ 0 := by
      intro h
      rw [h] at hdv
      exact hdnz (by omega)
    have hne : (depsOf subtasks v).filter
        (fun d => decide (d ∉ Q.map (fun q : Nat => (q : Int)))) ≠ [] := by
      intro h
      apply hunz
      rw [unprocessedCount, h]
      rfl
    obtain ⟨d, hdf⟩ := List.exists_mem_of_ne_nil _ hne
    obtain ⟨hdmem, hdnot⟩ := List.mem_filter.mp hdf
    obtain ⟨hd0, hdN, _⟩ := hdep v hvN d hdmem
    have hdnot2 : d ∉ Q.map (fun q : Nat => (q : Int)) := by simpa using hdnot
    have hdQ : d.toNat ∉ Q := by
      intro hcon
      exact hdnot2 (List.mem_map.mpr ⟨d.toNat, hcon, by omega⟩)
    have hdS : d.toNat ∈ Finset.range subtasks.length \ Q.toFinset :=
      Finset.mem_sdiff.mpr ⟨Finset.mem_range.mpr hdN,
        fun h => hdQ (List.mem_toFinset.mp h)⟩
    have h1 := hvmin d.toNat hdS
    have h2 := hrank v hvN d hdmem
    omega
  have hsucc : ¬ Q.length < subtasks.length → isDAGRanked subtasks := by
    intro hge
    refine ⟨fun v => Q.indexOf v, ?_⟩
    intro v hvN d hd
    have hvQ : v ∈ Q := by
      have hvf : v ∈ Q.toFinset := by
        rw [hQfin hge]
        exact Finset.mem_range.mpr hvN
      exact List.mem_toFinset.mp hvf
    have hjlt : Q.indexOf v < Q.length := List.indexOf_lt_length.mpr hvQ
    have hget : Q.get ⟨Q.indexOf v, hjlt⟩ = v := List.getElem_indexOf hjlt
    have hpos := hposF (Q.indexOf v) hjlt d (by rw [hget]; exact hd)
    rw [min_eq_left (Nat.le_of_lt hjlt)] at hpos
    exact indexOf_lt_of_mem_take Q _ _ hpos
  constructor
  · intro hDAG
    have hge := hnotlt hDAG
    refine ⟨Q, ?_, ?_, ?_, ?_⟩
    · rw [hunfold, if_neg hge]
    · refine List.perm_of_nodup_nodup_toFinset_eq hndF (List.nodup_range _) ?_
      rw [hQfin hge, hrangeFin]
    · intro j hj d hd
      have hpos := hposF j hj d hd
      rwa [min_eq_left (Nat.le_of_lt hj)] at hpos
    · rw [hQ, List.take_left]
  · intro hnDAG
    by_cases hlen : Q.length < subtasks.length
    · rw [hunfold, if_pos hlen]
    · exact absurd (hsucc hlen) hnDAG

theorem getSubtaskOrder_kahn_witness :
    isDAGRanked chainSubtasks ∧
    ∃ order, getSubtaskOrder chainSubtasks = .ok order ∧
      order.Perm (List.range chainSubtasks.length) ∧
      (∀ j, (hj : j < order.length) →
        ∀ d ∈ depsOf chainSubtasks (order.get ⟨j, hj⟩), d.toNat ∈ order.take j) ∧
      order.take (seedsOf chainSubtasks).length = seedsOf chainSubtasks := by
  have hdep : ∀ i, i < chainSubtasks.length → ∀ d ∈ depsOf chainSubtasks i,
      0 ≤ d ∧ d.toNat < chainSubtasks.length ∧
      (chainSubtasks.getD d.toNat default).type = SubtaskScoringType.Minimum := by
    decide
  have hmin : ∀ i, i < chainSubtasks.length → depsOf chainSubtasks i ≠ [] →
      (chainSubtasks.getD i default).type = SubtaskScoringType.Minimum := by
    decide
  have hdag : isDAGRanked chainSubtasks := ⟨fun v => v, by decide⟩
  exact ⟨hdag, (getSubtaskOrder_kahn chainSubtasks hdep hmin).1 hdag⟩

end JudgeV3
